/-
Verification of the record reconciliation and rendering pipeline of
twitter-archive-parser (parser.py) against its specification.

The Python program operates on loosely-typed JSON-like data.  We embed that
data shallowly as the inductive type `JValue` (null / bool / int / str /
list / dict), with dicts as association lists in insertion order, mirroring
Python dict semantics (lookup by key, update-in-place, append for new keys).

Python functions that mutate their argument in place and may raise are
embedded as functions returning `result × Option PyErr`: the first component
is the state of the mutated structure when the function returns or raises
(mutations performed before an exception persist, as in Python), the second
is the raised exception, if any.
-/
import Mathlib

set_option autoImplicit false
set_option linter.unreachableTactic false
set_option linter.unusedTactic false

/-- Errors raised by the embedded Python code. -/
inductive PyErr where
  /-- `Exception(f"Conflict at {path}, value {a} vs. {b}")` in `merge_dicts`. -/
  | conflict (path : List String)
  /-- `TypeError`, e.g. `max(None, x)`. -/
  | typeError
  /-- `KeyError` from a `d[k]` access with `k` missing. -/
  | keyError (k : String)
  /-- `ValueError`, e.g. `strptime` on a malformed date or `int()` on a bad string. -/
  | valueError
  /-- `AttributeError`, e.g. a `str` method called on a non-`str`. -/
  | attributeError
  /-- `EmptyTweetFullTextError` raised by `convert_tweet`. -/
  | emptyTweetFullText
  /-- `QuoteRecursionDepthError` raised by `convert_tweet` at the depth limit. -/
  | quoteRecursionDepth
  /-- `Exception` for a `None` reference in `collect_tweet_references`. -/
  | noneReference
  /-- Artefact of the fuelled embedding of the recursive renderer; proved unreachable. -/
  | outOfFuel
deriving DecidableEq, Repr

/-- Shallow embedding of the JSON-like values manipulated by parser.py.
Dicts are association lists in insertion order (Python 3.7+ dict semantics). -/
inductive JValue where
  | null : JValue
  | bool : Bool → JValue
  | int : Int → JValue
  | str : String → JValue
  | arr : List JValue → JValue
  | obj : List (String × JValue) → JValue

abbrev JObj := List (String × JValue)

mutual

/-- Size measure used for termination of the recursive functions on `JValue`. -/
def jsize : JValue → Nat
  | .arr xs => 1 + jsizeArr xs
  | .obj es => 1 + jsizeObj es
  | _ => 1

def jsizeArr : List JValue → Nat
  | [] => 0
  | v :: tl => 1 + jsize v + jsizeArr tl

def jsizeObj : List (String × JValue) → Nat
  | [] => 0
  | (_, v) :: tl => 1 + jsize v + jsizeObj tl

end

/-- Python `d[k]` read access on a dict: first (only) binding of `k`. -/
def pyGet (d : JObj) (k : String) : Option JValue :=
  match d with
  | [] => none
  | (k', v) :: tl => if k' = k then some v else pyGet tl k

/-- Python `k in d` on a dict: key presence (regardless of the value). -/
def pyContains (d : JObj) (k : String) : Bool :=
  (pyGet d k).isSome

/-- Python `d[k] = v` on a dict: update the binding in place if the key is
present, append a new binding otherwise. -/
def pySet (d : JObj) (k : String) (v : JValue) : JObj :=
  match d with
  | [] => [(k, v)]
  | (k', v') :: tl => if k' = k then (k', v) :: tl else (k', v') :: pySet tl k v

example : pySet [("a", .int 1), ("b", .int 2)] "b" (.int 3)
    = [("a", .int 1), ("b", .int 3)] := rfl

example : pySet [("a", .int 1)] "b" (.int 3) = [("a", .int 1), ("b", .int 3)] := rfl

mutual

/-- Python `==` on the embedded values.  Scalars: `None == None`; booleans and
ints compare numerically (`True == 1` in Python); strings compare as strings;
an int never equals a str.  Lists compare pointwise, dicts compare as
key-value sets (order-insensitive). -/
def pyEq : JValue → JValue → Bool
  | .null, .null => true
  | .bool a, .bool b => a == b
  | .bool a, .int n => (if a then (1 : Int) else 0) == n
  | .int n, .bool b => n == (if b then (1 : Int) else 0)
  | .int a, .int b => a == b
  | .str a, .str b => a == b
  | .arr a, .arr b => pyEqArr a b
  | .obj a, .obj b => a.length == b.length && pyEqEntries a b
  | _, _ => false

def pyEqArr : List JValue → List JValue → Bool
  | [], [] => true
  | a :: as, b :: bs => pyEq a b && pyEqArr as bs
  | _, _ => false

/-- Every key of the first dict is bound in the second to a `pyEq`-equal value. -/
def pyEqEntries : JObj → JObj → Bool
  | [], _ => true
  | (k, v) :: tl, b =>
    (match pyGet b k with
     | some w => pyEq v w
     | none => false) && pyEqEntries tl b

end

/-- Python `str.isnumeric()` (restricted to ASCII decimal digits; the archive
data only contains ASCII digits in numeric strings).  `"-1".isnumeric()` is
`False`. -/
def str_isnumeric (s : String) : Bool :=
  !s.data.isEmpty && s.data.all (·.isDigit)

/-- Value of an ASCII digit string. -/
def strToNat (s : String) : Nat :=
  s.data.foldl (fun n c => 10 * n + (c.toNat - 48)) 0

/-- `parse_as_number`: an int if given an int, or a str that parses as an int;
otherwise `None`.  Note that Python treats a `bool` as an `int`
(`isinstance(True, int)`), and then returns the bool itself. -/
def parse_as_number : JValue → Option JValue
  | .str s => if str_isnumeric s then some (.int (strToNat s)) else none
  | .bool b => some (.bool b)
  | .int n => some (.int n)
  | _ => none

/-- Numeric value used by Python comparison operators on ints and bools. -/
def pyNumVal : JValue → Int
  | .int n => n
  | .bool b => if b then 1 else 0
  | _ => 0

/-- Python `max(a, b)`: returns `b` if `b > a`, else `a` (first argument wins
ties).  Only applied to results of `parse_as_number` (ints or bools). -/
def pyMax (a b : JValue) : JValue :=
  if pyNumVal b > pyNumVal a then b else a

/-- Python `==` on two `parse_as_number` results (`None == None` is `True`). -/
def pyEqOpt : Option JValue → Option JValue → Bool
  | none, none => true
  | some a, some b => pyEq a b
  | _, _ => false

mutual

/-- Python `str(...)`, as used in f-string interpolation.  Exact for `None`,
bools, ints and strs; for containers the Python `repr` quoting of nested
strings is not reproduced (no claim depends on it). -/
def pyStr : JValue → String
  | .null => "None"
  | .bool b => if b then "True" else "False"
  | .int n => toString n
  | .str s => s
  | .arr xs => "[" ++ String.intercalate ", " (pyStrArr xs) ++ "]"
  | .obj es => "\x7b" ++ String.intercalate ", " (pyStrObj es) ++ "\x7d" 

def pyStrArr : List JValue → List String
  | [] => []
  | v :: tl => pyStr v :: pyStrArr tl

def pyStrObj : JObj → List String
  | [] => []
  | (k, v) :: tl => (k ++ ": " ++ pyStr v) :: pyStrObj tl

end

/-- `has_path`: walks a path through nested dicts, `True` iff every key is
present with a non-`None` value.  (Python `in` on a non-dict intermediate
value would be a sequence-membership or substring test; the archive data
always shapes these intermediates as dicts, so a non-dict yields `False`
here.) -/
def has_path (root : JValue) (path : List String) : Bool :=
  match path with
  | [] => true
  | k :: rest =>
    match root with
    | .obj d =>
      match pyGet d k with
      | none => false
      | some .null => false
      | some v => has_path v rest
    | _ => false

/-! ## `escape_markdown` (parser.py lines 398-414) -/

/-- The markdown control characters escaped by `escape_markdown`:
`\\_*[]()~`>#+-=|{}.!` (raw Python string `r"\_*[]()~`>#+-=|{}.!"`). -/
def characters_to_escape : String := "\\_*[]()~`>#+-=|\x7b\x7d.!"

/-- The per-character step of the loop in `escape_markdown`: a backslash
before a control character, a double space before a line break, any other
character unchanged. -/
def escapeMarkdownPiece (char : Char) : List Char :=
  if characters_to_escape.data.contains char then ['\\', char]
  else if char = '\n' then [' ', ' ', char]
  else [char]

/-- `escape_markdown`: escape markdown control characters from input text.
The Python loop appends `escapeMarkdownPiece` of each character to the
accumulated output. -/
def escape_markdown (input_text : String) : String :=
  ⟨input_text.data.foldl (fun output_text char => output_text ++ escapeMarkdownPiece char) []⟩

/-- A left-to-right scan for an occurrence of a markdown control character
that is not escaped: a backslash escapes the character right after it; a
trailing lone backslash counts as unescaped (backslash is itself a control
character). -/
def findsUnescapedMetachar : List Char → Bool
  | [] => false
  | c :: rest =>
    if c = '\\' then
      match rest with
      | [] => true
      | _ :: rest' => findsUnescapedMetachar rest'
    else if c ∈ characters_to_escape.data then true
    else findsUnescapedMetachar rest

theorem findsUnescapedMetachar_cons_other (c : Char) (rest : List Char)
    (h1 : ¬(c = '\\')) (h2 : ¬(c ∈ characters_to_escape.data)) :
    findsUnescapedMetachar (c :: rest) = findsUnescapedMetachar rest := by
  rw [findsUnescapedMetachar.eq_def]
  simp [h1, h2]

theorem findsUnescapedMetachar_cons_escaped (c : Char) (rest : List Char) :
    findsUnescapedMetachar ('\\' :: c :: rest) = findsUnescapedMetachar rest := by
  rw [findsUnescapedMetachar.eq_def]
  simp

theorem escape_markdown_foldl_eq_bind (l : List Char) (acc : List Char) :
    l.foldl (fun output_text char => output_text ++ escapeMarkdownPiece char) acc
      = acc ++ l.bind escapeMarkdownPiece := by
  induction l generalizing acc with
  | nil => simp
  | cons c tl ih => simp [ih, List.append_assoc]

theorem findsUnescapedMetachar_bind (l : List Char) :
    findsUnescapedMetachar (l.bind escapeMarkdownPiece) = false := by
  induction l with
  | nil => rfl
  | cons c tl ih =>
    have hcons : (c :: tl).bind escapeMarkdownPiece
        = escapeMarkdownPiece c ++ tl.bind escapeMarkdownPiece := rfl
    rw [hcons]
    by_cases hmeta : c ∈ characters_to_escape.data
    · have hp : escapeMarkdownPiece c = ['\\', c] := by
        simp [escapeMarkdownPiece, hmeta]
      rw [hp]
      rw [show (['\\', c] ++ tl.bind escapeMarkdownPiece)
            = '\\' :: c :: tl.bind escapeMarkdownPiece from rfl]
      rw [findsUnescapedMetachar_cons_escaped]
      exact ih
    · have hbs : ¬(c = '\\') := by
        rintro rfl
        exact hmeta (by decide)
      by_cases hnl : c = '\n'
      · subst hnl
        have hp : escapeMarkdownPiece '\n' = [' ', ' ', '\n'] := by decide
        rw [hp]
        rw [show ([' ', ' ', '\n'] ++ tl.bind escapeMarkdownPiece)
              = ' ' :: ' ' :: '\n' :: tl.bind escapeMarkdownPiece from rfl]
        rw [findsUnescapedMetachar_cons_other ' ' _ (by decide) (by decide)]
        rw [findsUnescapedMetachar_cons_other ' ' _ (by decide) (by decide)]
        rw [findsUnescapedMetachar_cons_other '\n' _ (by decide) (by decide)]
        exact ih
      · have hp : escapeMarkdownPiece c = [c] := by
          simp [escapeMarkdownPiece, hmeta, hnl]
        rw [hp, List.singleton_append]
        rw [findsUnescapedMetachar_cons_other c _ hbs hmeta]
        exact ih

/-- C7: `escape_markdown` prefixes a backslash to exactly the occurrences of
characters of the markdown metacharacter set, replaces every embedded line
break by two spaces followed by the line break, and leaves every other
character unchanged (the output is the concatenation of the per-character
pieces); consequently the output contains no unescaped occurrence of a
metacharacter. -/
theorem C7_escape_markdown (s : String) :
    escape_markdown s = ⟨s.data.bind escapeMarkdownPiece⟩
      ∧ findsUnescapedMetachar (escape_markdown s).data = false := by
  have h : escape_markdown s = ⟨s.data.bind escapeMarkdownPiece⟩ := by
    unfold escape_markdown
    rw [escape_markdown_foldl_eq_bind, List.nil_append]
  exact ⟨h, by rw [h]; exact findsUnescapedMetachar_bind s.data⟩

/-! ## `read_json_from_js_file` (parser.py lines 374-389) -/

/-- Result of `read_json_from_js_file`: either the empty dict returned for a
file with at most one line, or the string handed to `json.loads` (the JSON
parse itself is Python library code, outside the embedding). -/
inductive JsFileResult where
  | emptyDict : JsFileResult
  | parseJson : String → JsFileResult
deriving DecidableEq

/-- `read_json_from_js_file`, applied to the `readlines()` result (each line
keeps its trailing newline).  A file with at most one line yields the empty
dict.  Otherwise line 1 is replaced by the prefix `[` — extended by ` {` when
line 1 contains a `{` — and the remaining lines are concatenated onto it. -/
def read_json_from_js_file (data : List String) : JsFileResult :=
  if data.length ≤ 1 then .emptyDict
  else
    let pfx := if '\x7b' ∈ data.headI.data then "[ \x7b" else "["
    .parseJson (pfx ++ String.join (data.drop 1))

/-- The transformation described by the spec sentence for C8, for comparison
with `read_json_from_js_file`: the `{` is added exactly when the *second*
line opens an object (begins with `{`). -/
def read_json_from_js_file_claimed (data : List String) : JsFileResult :=
  if data.length ≤ 1 then .emptyDict
  else
    let opens : Bool :=
      match (data.getD 1 "").data with
      | '\x7b' :: _ => true
      | _ => false
    let pfx := if opens then "[ \x7b" else "["
    .parseJson (pfx ++ String.join (data.drop 1))

/-- C8 counterexample: a file whose discarded first line contains no `{` and
whose second line opens an object.  The code prefixes only `[` (producing
well-formed JSON), while the claim asks for `[` and `{`. -/
theorem C8_counterexample :
    read_json_from_js_file ["window.X = [\n", "\x7b\"a\": 1\x7d]"]
      ≠ read_json_from_js_file_claimed ["window.X = [\n", "\x7b\"a\": 1\x7d]"] := by
  decide

/-- C8 (amended): a file with at most one line is an empty collection; for a
longer file, line 1 is discarded, the remaining lines are concatenated, and
the result is prefixed with `[` — and additionally ` {` exactly when the
*first* line (the discarded assignment line) contains a `{` character. -/
theorem C8_read_json_from_js_file (data : List String) :
    (data.length ≤ 1 → read_json_from_js_file data = .emptyDict)
    ∧ (∀ l0 rest, data = l0 :: rest → rest ≠ [] →
        read_json_from_js_file data
          = .parseJson ((if '\x7b' ∈ l0.data then "[ \x7b" else "[") ++ String.join rest)) := by
  constructor
  · intro h
    unfold read_json_from_js_file
    simp [h]
  · rintro l0 rest rfl hrest
    unfold read_json_from_js_file
    have hlen : ¬((l0 :: rest).length ≤ 1) := by
      cases rest with
      | nil => exact absurd rfl hrest
      | cons b tl => simp
    simp only [hlen, if_false, List.headI, List.drop_one, List.tail_cons]

/-- Witness for `C8_read_json_from_js_file` at a concrete input. -/
theorem C8_read_json_from_js_file_witness :
    read_json_from_js_file ["window.X = [\n", "1]"] = .parseJson "[1]" := by
  have h := (C8_read_json_from_js_file ["window.X = [\n", "1]"]).2
    "window.X = [\n" ["1]"] rfl (by decide)
  simpa using h


/-! ## `chunks` and direct-message pagination (parser.py lines 1638-1641 and 1796-1830) -/

/-- `chunks`: successive `n`-sized chunks from `lst`
(`for i in range(0, len(lst), n): yield lst[i:i+n]`).  For `n ≥ 1` the loop
runs at most `len(lst)` times, so the iteration is embedded with that bound
as a structural counter (`chunksGo`).  Python raises for a step of 0; the
function is only ever called with `n = 1000`, and the `n = 0` case here is
arbitrary. -/
def chunksGo {α : Type} (n : Nat) : Nat → List α → List (List α)
  | _, [] => []
  | 0, _ :: _ => []
  | fuel + 1, x :: xs => ((x :: xs).take n) :: chunksGo n fuel ((x :: xs).drop n)

def chunks {α : Type} (lst : List α) (n : Nat) : List (List α) :=
  if n = 0 then [] else chunksGo n lst.length lst

/-- The pagination decision of `parse_direct_messages`: a conversation with
more than 1000 messages is written as one file per 1000-message chunk, the
file carrying part index `chunk_index + 1`; otherwise a single file without
an index holds all messages.  A file is modelled as its optional part index
paired with the messages written to it. -/
def paginate_messages {α : Type} (messages : List α) : List (Option Nat × List α) :=
  if messages.length > 1000 then
    (chunks messages 1000).enum.map (fun p => (some (p.1 + 1), p.2))
  else
    [(none, messages)]

theorem chunksGo_join {α : Type} (n : Nat) (hn : n ≠ 0) :
    ∀ (fuel : Nat) (l : List α), l.length ≤ fuel → (chunksGo n fuel l).join = l := by
  intro fuel
  induction fuel with
  | zero =>
    intro l hl
    have : l = [] := List.eq_nil_of_length_eq_zero (Nat.le_zero.mp hl)
    subst this
    rfl
  | succ m ih =>
    intro l hl
    match l with
    | [] => rfl
    | x :: xs =>
      obtain ⟨k, rfl⟩ := Nat.exists_eq_succ_of_ne_zero hn
      show (x :: xs).take (k + 1) ++ (chunksGo (k + 1) m ((x :: xs).drop (k + 1))).join
          = x :: xs
      have hrec : ((x :: xs).drop (k + 1)).length ≤ m := by
        simp only [List.length_cons] at hl
        simp only [List.length_drop, List.length_cons]
        omega
      rw [ih _ hrec]
      exact List.take_append_drop _ _

theorem chunks_join {α : Type} (n : Nat) (hn : n ≠ 0) :
    ∀ l : List α, (chunks l n).join = l := by
  intro l
  unfold chunks
  rw [if_neg hn]
  exact chunksGo_join n hn l.length l le_rfl

theorem chunksGo_mem_length {α : Type} (n : Nat) (hn : n ≠ 0) :
    ∀ (fuel : Nat) (l : List α), l.length ≤ fuel →
      ∀ c ∈ chunksGo n fuel l, c.length ≤ n ∧ c ≠ [] := by
  intro fuel
  induction fuel with
  | zero =>
    intro l hl
    have : l = [] := List.eq_nil_of_length_eq_zero (Nat.le_zero.mp hl)
    subst this
    simp [chunksGo]
  | succ m ih =>
    intro l hl
    match l with
    | [] => simp [chunksGo]
    | x :: xs =>
      intro c hc
      rcases List.mem_cons.mp hc with rfl | hc
      · exact ⟨by simpa using List.length_take_le _ _, by simpa using hn⟩
      · have hrec : ((x :: xs).drop n).length ≤ m := by
          obtain ⟨k, rfl⟩ := Nat.exists_eq_succ_of_ne_zero hn
          simp only [List.length_cons] at hl
          simp only [List.length_drop, List.length_cons]
          omega
        exact ih _ hrec c hc

theorem chunks_mem_length {α : Type} (n : Nat) (hn : n ≠ 0) :
    ∀ l : List α, ∀ c ∈ chunks l n, c.length ≤ n ∧ c ≠ [] := by
  intro l
  unfold chunks
  rw [if_neg hn]
  exact chunksGo_mem_length n hn l.length l le_rfl

theorem chunksGo_getD_length {α : Type} (n : Nat) (hn : n ≠ 0) :
    ∀ (fuel : Nat) (l : List α), l.length ≤ fuel →
      ∀ i, i + 1 < (chunksGo n fuel l).length →
        ((chunksGo n fuel l).getD i []).length = n := by
  intro fuel
  induction fuel with
  | zero =>
    intro l hl
    have : l = [] := List.eq_nil_of_length_eq_zero (Nat.le_zero.mp hl)
    subst this
    simp [chunksGo]
  | succ m ih =>
    intro l hl
    match l with
    | [] => simp [chunksGo]
    | x :: xs =>
      intro i hi
      have hrec : ((x :: xs).drop n).length ≤ m := by
        obtain ⟨k, rfl⟩ := Nat.exists_eq_succ_of_ne_zero hn
        simp only [List.length_cons] at hl
        simp only [List.length_drop, List.length_cons]
        omega
      cases i with
      | zero =>
        -- a later chunk exists, so the list is longer than n
        have hne : chunksGo n m ((x :: xs).drop n) ≠ [] := by
          intro h
          have : (chunksGo n (m + 1) (x :: xs)).length
              = 1 + (chunksGo n m ((x :: xs).drop n)).length := by
            show ((x :: xs).take n :: chunksGo n m ((x :: xs).drop n)).length = _
            simp [Nat.add_comm]
          rw [this, h] at hi
          simp at hi
        have hlong : n < (x :: xs).length := by
          by_contra hle
          push_neg at hle
          have hdrop : (x :: xs).drop n = [] := List.drop_eq_nil_of_le hle
          rw [hdrop] at hne
          exact hne (by cases m <;> rfl)
        show ((x :: xs).take n).length = n
        simpa using List.length_take_of_le (Nat.le_of_lt hlong)
      | succ j =>
        have hj : j + 1 < (chunksGo n m ((x :: xs).drop n)).length := by
          have : (chunksGo n (m + 1) (x :: xs)).length
              = (chunksGo n m ((x :: xs).drop n)).length + 1 := by
            show ((x :: xs).take n :: chunksGo n m ((x :: xs).drop n)).length = _
            simp
          omega
        exact ih _ hrec j hj

/-- Every chunk except possibly the final one has length exactly `n`. -/
theorem chunks_getD_length {α : Type} (n : Nat) (hn : n ≠ 0) :
    ∀ (l : List α) (i : Nat), i + 1 < (chunks l n).length →
      ((chunks l n).getD i []).length = n := by
  intro l
  unfold chunks
  rw [if_neg hn]
  exact chunksGo_getD_length n hn l.length l le_rfl

theorem getD_map_pages {α : Type} (f : (Nat × List α) → (Option Nat × List α))
    (l : List (Nat × List α)) (i : Nat) (d : Nat × List α) :
    (l.map f).getD i (f d) = f (l.getD i d) := by
  induction l generalizing i with
  | nil => cases i <;> rfl
  | cons x tl ih => cases i <;> simp [List.getD, ih]

theorem getD_map_lt {α β : Type} (f : α → β) (l : List α) (d : β) (dflt : α) :
    ∀ i, i < l.length → (l.map f).getD i d = f (l.getD i dflt) := by
  induction l with
  | nil => intro i hi; simp at hi
  | cons x tl ih =>
    intro i hi
    cases i with
    | zero => rfl
    | succ j => exact ih j (by simpa using hi)

theorem enumFrom_getD_lt {α : Type} (l : List α) (dflt : α) :
    ∀ (n i : Nat), i < l.length → (l.enumFrom n).getD i (0, dflt) = (n + i, l.getD i dflt) := by
  induction l with
  | nil => intro n i hi; simp at hi
  | cons x tl ih =>
    intro n i hi
    cases i with
    | zero => simp [List.enumFrom, List.getD]
    | succ j =>
      have := ih (n + 1) j (by simpa using hi)
      simp only [List.enumFrom, List.getD_cons_succ, this]
      congr 1
      omega

set_option maxRecDepth 10000 in
/-- C6: a conversation holding at most 1000 messages is written as exactly one
file with all its messages; a larger one is split into consecutive 1-based
pages, every page except possibly the last holding exactly 1000 messages, the
pages concatenating back to the full conversation; exactly 1000 messages give
one file, 1001 give two files of sizes 1000 and 1. -/
theorem C6_pagination :
    (∀ (α : Type) (messages : List α), messages.length ≤ 1000 →
        paginate_messages messages = [(none, messages)])
    ∧ (∀ (α : Type) (messages : List α), 1000 < messages.length →
        ((paginate_messages messages).map Prod.snd).join = messages
        ∧ (paginate_messages messages).map Prod.fst
            = (List.range (paginate_messages messages).length).map (fun i => some (i + 1))
        ∧ (∀ p ∈ paginate_messages messages, p.2.length ≤ 1000 ∧ p.2 ≠ [])
        ∧ (∀ i, i + 1 < (paginate_messages messages).length →
            ((paginate_messages messages).getD i (none, [])).2.length = 1000))
    ∧ paginate_messages (List.range 1000) = [(none, List.range 1000)]
    ∧ (paginate_messages (List.range 1001)).map (fun p => (p.1, p.2.length))
        = [(some 1, 1000), (some 2, 1)] := by
  have h1000 : (1000 : Nat) ≠ 0 := by decide
  refine ⟨?_, ?_, ?_, ?_⟩
  · intro α messages h
    unfold paginate_messages
    rw [if_neg (by omega)]
  · intro α messages h
    have hpag : paginate_messages messages
        = (chunks messages 1000).enum.map (fun p => (some (p.1 + 1), p.2)) := by
      unfold paginate_messages
      rw [if_pos h]
    have hsnd : (paginate_messages messages).map Prod.snd = chunks messages 1000 := by
      rw [hpag, List.map_map]
      have : (Prod.snd ∘ fun p : Nat × List α => (some (p.1 + 1), p.2)) = Prod.snd := by
        funext p
        rfl
      rw [this, List.enum_map_snd]
    refine ⟨?_, ?_, ?_, ?_⟩
    · rw [hsnd]
      exact chunks_join 1000 h1000 messages
    · rw [hpag, List.map_map, List.length_map, List.enum_length]
      have hleft : (Prod.fst ∘ fun p : Nat × List α => (some (p.1 + 1), p.2))
          = ((fun i : Nat => some (i + 1)) ∘ Prod.fst) := rfl
      rw [hleft, ← List.map_map, List.enum_map_fst]
    · intro p hp
      rw [hpag] at hp
      obtain ⟨q, hq, rfl⟩ := List.mem_map.mp hp
      have hq2 : q.2 ∈ chunks messages 1000 := by
        have : q.2 ∈ (chunks messages 1000).enum.map Prod.snd :=
          List.mem_map_of_mem Prod.snd hq
        rwa [List.enum_map_snd] at this
      exact chunks_mem_length 1000 h1000 messages q.2 hq2
    · intro i hi
      rw [hpag] at hi ⊢
      have hilen : i < (chunks messages 1000).length := by
        simp only [List.length_map, List.enum_length] at hi
        omega
      have hienum : i < (chunks messages 1000).enum.length := by
        rwa [List.enum_length]
      rw [getD_map_lt _ _ _ (0, []) i hienum]
      have := enumFrom_getD_lt (chunks messages 1000) [] 0 i hilen
      rw [List.enum] at *
      rw [this]
      have hlen2 : i + 1 < (chunks messages 1000).length := by
        simpa [List.enum_length] using hi
      exact chunks_getD_length 1000 h1000 messages i hlen2
  · unfold paginate_messages
    rw [if_neg (by simp)]
  · decide

/-- Witness for `C6_pagination` at concrete inputs. -/
theorem C6_pagination_witness :
    paginate_messages [42] = [(none, [42])]
    ∧ ((paginate_messages (List.range 1001)).map Prod.snd).join = List.range 1001 :=
  ⟨C6_pagination.1 Nat [42] (by decide),
   (C6_pagination.2.1 Nat (List.range 1001) (by simp)).1⟩

/-! ## The record merge engine: `equal_ignore_types`, `merge_lists`,
`merge_dicts` (parser.py lines 430-517) -/

/-- Python `x is None`. -/
def isNull : JValue → Bool
  | .null => true
  | _ => false

/-- Python `item in lst` on a list (membership by `==`). -/
def pyListContains (l : List JValue) (v : JValue) : Bool :=
  l.any (fun x => pyEq x v)

/-- Python `s.endswith(suffix)`. -/
def str_endswith (s suffix : String) : Bool :=
  s.data.drop (s.data.length - suffix.data.length) == suffix.data

example : str_endswith "retweet_count" "_count" = true := rfl

example : str_endswith "count" "_count" = false := rfl

mutual

/-- `equal_ignore_types`: two things are equal even if one is a str and the
other a number with identical content, or if both are lists or both dicts and
all nested values are `equal_ignore_types`.  The dict branch reads `b[key]`
for every key of `a`, which raises `KeyError` when the key sets differ but
the lengths agree. -/
def equal_ignore_types (a b : JValue) : Bool × Option PyErr :=
  if pyEq a b then (true, none)
  else if (parse_as_number a).isSome && (parse_as_number b).isSome then
    (pyEqOpt (parse_as_number a) (parse_as_number b), none)
  else
    match a, b with
    | .obj da, .obj db =>
      if da.length ≠ db.length then (false, none)
      else equalIgnoreTypesEntries da db
    | .arr la, .arr lb =>
      if la.length ≠ lb.length then (false, none)
      else equalIgnoreTypesList la lb
    | _, _ => (false, none)

/-- The `for key in a.keys()` loop of `equal_ignore_types`. -/
def equalIgnoreTypesEntries (da db : JObj) : Bool × Option PyErr :=
  match da with
  | [] => (true, none)
  | (k, v) :: tl =>
    match pyGet db k with
    | none => (false, some (.keyError k))
    | some w =>
      let r := equal_ignore_types v w
      match r.2 with
      | some e => (false, some e)
      | none => if r.1 then equalIgnoreTypesEntries tl db else (false, none)

/-- The `for i in range(len(a))` loop of `equal_ignore_types` (the lengths
are already known to agree). -/
def equalIgnoreTypesList (la lb : List JValue) : Bool × Option PyErr :=
  match la, lb with
  | [], _ => (true, none)
  | _ :: _, [] => (true, none)
  | v :: tl, w :: tlb =>
    let r := equal_ignore_types v w
    match r.2 with
    | some e => (false, some e)
    | none => if r.1 then equalIgnoreTypesList tl tlb else (false, none)

end

mutual

/-- `merge_dicts`: merges `b` into `a`, mutating and returning `a`.  The pair
holds the state of `a` when the function returns or raises, and the raised
exception if any (mutations made before the raise persist, as in Python). -/
def merge_dicts (a b : JObj) (path : List String) : JObj × Option PyErr :=
  match b with
  | [] => (a, none)
  | (key, vb) :: rest =>
    match pyGet a key with
    | none => merge_dicts (pySet a key vb) rest path
    | some va =>
      let r := merge_value path key va vb
      match r.2 with
      | some e => (pySet a key r.1, some e)
      | none => merge_dicts (pySet a key r.1) rest path
termination_by (jsizeObj b, 0)
decreasing_by all_goals (simp [jsize, jsizeArr, jsizeObj, Prod.lex_iff] <;> omega)

/-- The per-key body of the `for key in b` loop of `merge_dicts` when `key`
is present in both dicts, in source order: recurse on two dicts; merge two
lists; equal leaf values pass; `*_count` keys take the `max` of the parsed
numbers (`max(None, x)` raises `TypeError`); the known-volatile keys
`possibly_sensitive`/`protected`/`monetizable` keep the stored value; values
equal after numeric parsing are replaced by the parsed number (both `None`
yields `None`, since `None == None`); a `None` on one side yields the other
side; anything else raises the merge conflict. -/
def merge_value (path : List String) (key : String) (va vb : JValue) :
    JValue × Option PyErr :=
  match va, vb with
  | .obj oa, .obj ob =>
    let r := merge_dicts oa ob (path ++ [key])
    (.obj r.1, r.2)
  | .arr la, .arr lb =>
    let r := merge_lists la lb true
    (.arr r.1, r.2)
  | va, vb =>
    if pyEq va vb then (va, none)
    else if str_endswith key "_count" then
      match parse_as_number va, parse_as_number vb with
      | some pa, some pb => (pyMax pa pb, none)
      | _, _ => (va, some .typeError)
    else if key = "possibly_sensitive" ∨ key = "protected" ∨ key = "monetizable" then
      (va, none)
    else if pyEqOpt (parse_as_number va) (parse_as_number vb) then
      ((parse_as_number va).getD .null, none)
    else if isNull va && !(isNull vb) then (vb, none)
    else if !(isNull va) && isNull vb then (va, none)
    else (va, some (.conflict (path ++ [key])))
termination_by (jsize vb, 0)
decreasing_by all_goals (simp [jsize, jsizeArr, jsizeObj, Prod.lex_iff] <;> omega)

/-- `merge_lists`: adds all items of `b` to `a` that are not already in `a`.
With `ignore_types`, equality is `equal_ignore_types`, and two dict items
with equal `id_str` values are merged in place instead of duplicated. -/
def merge_lists (a b : List JValue) (ignore_types : Bool) :
    List JValue × Option PyErr :=
  match b with
  | [] => (a, none)
  | item_b :: rest =>
    if ignore_types then
      let s := merge_list_scan a item_b
      match s.2.2 with
      | some e => (s.2.1, some e)
      | none => merge_lists (if s.1 then s.2.1 else s.2.1 ++ [item_b]) rest ignore_types
    else
      merge_lists (if pyListContains a item_b then a else a ++ [item_b]) rest ignore_types
termination_by (jsizeArr b, 0)
decreasing_by all_goals (simp [jsize, jsizeArr, jsizeObj, Prod.lex_iff] <;> omega)

/-- The `for item_a in a` loop of `merge_lists` (with `ignore_types=True`):
returns whether `item_b` was found in `a`, the state of `a`, and any
exception.  A dict item of `a` with an `id_str` equal to `item_b`'s is merged
with `item_b` in place. -/
def merge_list_scan (a : List JValue) (item_b : JValue) :
    Bool × List JValue × Option PyErr :=
  match a with
  | [] => (false, [], none)
  | item_a :: tail =>
    let e := equal_ignore_types item_a item_b
    match e.2 with
    | some err => (false, item_a :: tail, some err)
    | none =>
      if e.1 then (true, item_a :: tail, none)
      else
        match hB : item_b with
        | .obj eb =>
          match item_a with
          | .obj ea =>
            if has_path (.obj ea) ["id_str"] && has_path (.obj eb) ["id_str"]
                && pyEqOpt (pyGet ea "id_str") (pyGet eb "id_str") then
              let m := merge_dicts ea eb []
              (true, .obj m.1 :: tail, m.2)
            else
              let s := merge_list_scan tail item_b
              (s.1, item_a :: s.2.1, s.2.2)
          | _ =>
            let s := merge_list_scan tail item_b
            (s.1, item_a :: s.2.1, s.2.2)
        | _ =>
          let s := merge_list_scan tail item_b
          (s.1, item_a :: s.2.1, s.2.2)
termination_by (jsize item_b, a.length)
decreasing_by
  all_goals subst_vars
  all_goals (simp [jsize, jsizeArr, jsizeObj, Prod.lex_iff] <;> omega)

end

/-! ### Dict access lemmas -/

theorem pyGet_pySet_self (d : JObj) (k : String) (v : JValue) :
    pyGet (pySet d k v) k = some v := by
  induction d with
  | nil => simp [pySet, pyGet]
  | cons p tl ih =>
    obtain ⟨k2, v2⟩ := p
    by_cases h : k2 = k
    · subst h
      simp [pySet, pyGet]
    · simp [pySet, pyGet, h, ih]

theorem pyGet_pySet_ne (d : JObj) (k k2 : String) (v : JValue) (h : k ≠ k2) :
    pyGet (pySet d k v) k2 = pyGet d k2 := by
  induction d with
  | nil => simp [pySet, pyGet, h]
  | cons p tl ih =>
    obtain ⟨k3, v3⟩ := p
    by_cases h3 : k3 = k
    · subst h3
      simp [pySet, pyGet, h]
    · simp [pySet, pyGet, h3, ih]

theorem pySet_self (d : JObj) (k : String) (v : JValue) (h : pyGet d k = some v) :
    pySet d k v = d := by
  induction d with
  | nil => simp [pyGet] at h
  | cons p tl ih =>
    obtain ⟨k2, v2⟩ := p
    by_cases h2 : k2 = k
    · subst h2
      simp [pyGet] at h
      simp [pySet, h]
    · simp [pyGet, h2] at h
      simp [pySet, h2, ih h]

theorem pyGet_eq_none_of_not_mem (b : JObj) (k : String) (h : k ∉ b.map Prod.fst) :
    pyGet b k = none := by
  induction b with
  | nil => rfl
  | cons p tl ih =>
    obtain ⟨k2, v2⟩ := p
    simp only [List.map_cons, List.mem_cons] at h
    push_neg at h
    have hne : ¬(k2 = k) := fun hh => h.1 hh.symm
    simp [pyGet, hne, ih h.2]

theorem pyGet_of_mem_nodup (b : JObj) (k : String) (vb : JValue)
    (hmem : (k, vb) ∈ b) (hnd : (b.map Prod.fst).Nodup) : pyGet b k = some vb := by
  induction b with
  | nil => simp at hmem
  | cons p tl ih =>
    obtain ⟨k2, v2⟩ := p
    simp only [List.map_cons, List.nodup_cons] at hnd
    rcases List.mem_cons.mp hmem with heq | hmem2
    · rw [Prod.mk.injEq] at heq
      obtain ⟨rfl, rfl⟩ := heq
      simp [pyGet]
    · have hne : k2 ≠ k := by
        rintro rfl
        exact hnd.1 (List.mem_map_of_mem Prod.fst hmem2)
      simp [pyGet, hne, ih hmem2 hnd.2]

/-! ### Characterisation of `merge_dicts` key by key -/

/-- The per-key outcome of `merge_dicts a b`: a key only in `a` keeps its
value, a key only in `b` is copied in, a key in both is combined by
`merge_value`. -/
def mergeKeySpec (path : List String) (k : String) :
    Option JValue → Option JValue → Option JValue
  | some va, some vb => some (merge_value path k va vb).1
  | some va, none => some va
  | none, some vb => some vb
  | none, none => none

theorem merge_dicts_nil (a : JObj) (path : List String) :
    merge_dicts a [] path = (a, none) := by
  rw [merge_dicts]

theorem merge_dicts_cons (a : JObj) (key : String) (vb : JValue) (rest : JObj)
    (path : List String) :
    merge_dicts a ((key, vb) :: rest) path
      = match pyGet a key with
        | none => merge_dicts (pySet a key vb) rest path
        | some va =>
          match (merge_value path key va vb).2 with
          | some e => (pySet a key (merge_value path key va vb).1, some e)
          | none => merge_dicts (pySet a key (merge_value path key va vb).1) rest path := by
  rw [merge_dicts]

theorem merge_dicts_cons_absent (a rest : JObj) (path : List String) (key : String)
    (vb : JValue) (hga : pyGet a key = none) :
    merge_dicts a ((key, vb) :: rest) path = merge_dicts (pySet a key vb) rest path := by
  rw [merge_dicts_cons]
  simp [hga]

theorem merge_dicts_cons_err (a rest : JObj) (path : List String) (key : String)
    (va vb : JValue) (e : PyErr) (hga : pyGet a key = some va)
    (hr : (merge_value path key va vb).2 = some e) :
    merge_dicts a ((key, vb) :: rest) path
      = (pySet a key (merge_value path key va vb).1, some e) := by
  rw [merge_dicts_cons]
  simp [hga, hr]

theorem merge_dicts_cons_ok (a rest : JObj) (path : List String) (key : String)
    (va vb : JValue) (hga : pyGet a key = some va)
    (hr : (merge_value path key va vb).2 = none) :
    merge_dicts a ((key, vb) :: rest) path
      = merge_dicts (pySet a key (merge_value path key va vb).1) rest path := by
  rw [merge_dicts_cons]
  simp [hga, hr]

/-- On success, `merge_dicts` is `mergeKeySpec` at every key, and every key
present on both sides had a successful `merge_value`.  Requires the keys of
`b` to be distinct (Python dicts guarantee this). -/
theorem merge_dicts_lookup (path : List String) :
    ∀ (b a m : JObj), (b.map Prod.fst).Nodup → merge_dicts a b path = (m, none) →
      ∀ k, pyGet m k = mergeKeySpec path k (pyGet a k) (pyGet b k)
        ∧ ∀ va vb, pyGet a k = some va → pyGet b k = some vb →
            (merge_value path k va vb).2 = none := by
  intro b
  induction b with
  | nil =>
    intro a m hnd h k
    rw [merge_dicts_nil] at h
    have hm : a = m := congrArg Prod.fst h
    subst hm
    constructor
    · cases hma : pyGet a k <;> simp [mergeKeySpec, pyGet, hma]
    · intro va vb _ hvb
      simp [pyGet] at hvb
  | cons p rest ih =>
    obtain ⟨key, vb0⟩ := p
    intro a m hnd h k
    simp only [List.map_cons, List.nodup_cons] at hnd
    have hkey_not : key ∉ rest.map Prod.fst := hnd.1
    have hnd2 : (rest.map Prod.fst).Nodup := hnd.2
    cases hga : pyGet a key with
    | none =>
      rw [merge_dicts_cons_absent a rest path key vb0 hga] at h
      have hih := ih (pySet a key vb0) m hnd2 h
      by_cases hk : k = key
      · subst hk
        constructor
        · rw [(hih k).1, pyGet_pySet_self, pyGet_eq_none_of_not_mem rest k hkey_not]
          simp [mergeKeySpec, hga, pyGet]
        · intro va vb hva _
          rw [hga] at hva
          exact absurd hva (by simp)
      · have hne : ¬(key = k) := fun hh => hk hh.symm
        constructor
        · rw [(hih k).1, pyGet_pySet_ne a key k vb0 hne]
          simp [pyGet, hne]
        · intro va vb hva hvb
          simp only [pyGet, if_neg hne] at hvb
          exact (hih k).2 va vb (by rw [pyGet_pySet_ne a key k vb0 hne]; exact hva) hvb
    | some va0 =>
      cases hr2 : (merge_value path key va0 vb0).2 with
      | some e =>
        rw [merge_dicts_cons_err a rest path key va0 vb0 e hga hr2] at h
        simp at h
      | none =>
        rw [merge_dicts_cons_ok a rest path key va0 vb0 hga hr2] at h
        have hih := ih (pySet a key (merge_value path key va0 vb0).1) m hnd2 h
        by_cases hk : k = key
        · subst hk
          constructor
          · rw [(hih k).1, pyGet_pySet_self, pyGet_eq_none_of_not_mem rest k hkey_not]
            simp [mergeKeySpec, hga, pyGet]
          · intro va vb hva hvb
            rw [hga] at hva
            simp only [pyGet, if_pos rfl] at hvb
            obtain rfl : va0 = va := by simpa using hva
            obtain rfl : vb0 = vb := by simpa using hvb
            exact hr2
        · have hne : ¬(key = k) := fun hh => hk hh.symm
          constructor
          · rw [(hih k).1, pyGet_pySet_ne a key k _ hne]
            simp [pyGet, hne]
          · intro va vb hva hvb
            simp only [pyGet, if_neg hne] at hvb
            exact (hih k).2 va vb
              (by rw [pyGet_pySet_ne a key k _ hne]; exact hva) hvb

/-- A list or dict value (`isinstance(x, (list, dict))`). -/
def isContainer : JValue → Bool
  | .obj _ => true
  | .arr _ => true
  | _ => false

set_option maxHeartbeats 1000000 in
/-- For two non-container values, `merge_value` runs the scalar branch chain
of `merge_dicts` (no dict or list recursion). -/
theorem merge_value_scalar_eq (path : List String) (k : String) (va vb : JValue)
    (ha : isContainer va = false) (hb : isContainer vb = false) :
    merge_value path k va vb =
      (if pyEq va vb then (va, none)
       else if str_endswith k "_count" then
         match parse_as_number va, parse_as_number vb with
         | some pa, some pb => (pyMax pa pb, none)
         | _, _ => (va, some .typeError)
       else if k = "possibly_sensitive" ∨ k = "protected" ∨ k = "monetizable" then
         (va, none)
       else if pyEqOpt (parse_as_number va) (parse_as_number vb) then
         ((parse_as_number va).getD .null, none)
       else if isNull va && !(isNull vb) then (vb, none)
       else if !(isNull va) && isNull vb then (va, none)
       else (va, some (.conflict (path ++ [k])))) := by
  cases va <;> cases vb <;>
    first
      | (simp only [merge_value.eq_def]; done)
      | simp [isContainer] at ha hb

theorem parse_some_not_container (v p : JValue) (h : parse_as_number v = some p) :
    isContainer v = false := by
  cases v <;> simp [parse_as_number, isContainer] at h ⊢

theorem pyMax_int (x y : Int) : pyMax (.int x) (.int y) = .int (max x y) := by
  simp only [pyMax, pyNumVal]
  rcases le_or_lt y x with h | h
  · rw [if_neg (by omega), max_eq_left h]
  · rw [if_pos (by omega), max_eq_right (le_of_lt h)]

/-- C1: merging two partial views of the same record, a key ending in
`_count` present in both with differing values that normalise to integers is
set to the maximum of the two integers; in particular merging a record with
`retweet_count = 3` and one with `retweet_count = 7` yields
`retweet_count = 7`. -/
theorem C1_count_fields_take_max (a b m : JObj) (k : String) (va vb : JValue)
    (x y : Int)
    (hnb : (b.map Prod.fst).Nodup)
    (hk : str_endswith k "_count" = true)
    (hva : pyGet a k = some va) (hvb : pyGet b k = some vb)
    (hx : parse_as_number va = some (.int x)) (hy : parse_as_number vb = some (.int y))
    (hne : pyEq va vb = false)
    (hm : merge_dicts a b [] = (m, none)) :
    pyGet m k = some (.int (max x y))
    ∧ merge_dicts [("retweet_count", .int 3)] [("retweet_count", .int 7)] []
        = ([("retweet_count", .int 7)], none) := by
  constructor
  · have hchar := (merge_dicts_lookup [] b a m hnb hm k).1
    rw [hchar, hva, hvb]
    have hmv : merge_value [] k va vb = (.int (max x y), none) := by
      rw [merge_value_scalar_eq [] k va vb (parse_some_not_container va _ hx)
        (parse_some_not_container vb _ hy)]
      rw [if_neg (by simp [hne]), if_pos hk, hx, hy]
      show (pyMax (.int x) (.int y), (none : Option PyErr)) = (.int (max x y), none)
      rw [pyMax_int]
    simp [mergeKeySpec, hmv]
  · simp [merge_dicts, merge_value, pyGet, pySet, pyEq, str_endswith,
      parse_as_number, pyMax, pyNumVal]

/-- Witness for `C1_count_fields_take_max` at a concrete input. -/
theorem C1_count_fields_take_max_witness :
    pyGet (merge_dicts [("favorite_count", .int 2)] [("favorite_count", .str "9")] []).1
        "favorite_count" = some (.int 9) := by
  have h := (C1_count_fields_take_max
      [("favorite_count", .int 2)] [("favorite_count", .str "9")]
      (merge_dicts [("favorite_count", .int 2)] [("favorite_count", .str "9")] []).1
      "favorite_count" (.int 2) (.str "9") 2 9
      (by simp) rfl rfl rfl rfl
      (by simp [parse_as_number, str_isnumeric, strToNat]) rfl
      (by simp [merge_dicts, merge_value, pyGet, pySet, pyEq, str_endswith,
            parse_as_number, pyMax, pyNumVal, str_isnumeric, strToNat])).1
  simpa using h

/-- C10: on a key ending in `_count` with differing non-container values,
when either value fails to parse as a nonnegative integer (e.g. the numeric
string `"-1"`), the merge raises `TypeError` from `max(None, ...)` instead of
the merge-conflict error. -/
theorem C10_count_branch_type_error (path : List String) (k : String) (va vb : JValue)
    (ha : isContainer va = false) (hb : isContainer vb = false)
    (hk : str_endswith k "_count" = true)
    (hne : pyEq va vb = false)
    (hparse : parse_as_number va = none ∨ parse_as_number vb = none) :
    merge_value path k va vb = (va, some .typeError) := by
  rw [merge_value_scalar_eq path k va vb ha hb]
  rw [if_neg (by simp [hne]), if_pos hk]
  cases hpa : parse_as_number va <;> cases hpb : parse_as_number vb <;>
    simp_all

/-- Witness for `C10_count_branch_type_error`: merging `retweet_count` values
`3` and `"-1"` raises `TypeError`. -/
theorem C10_count_branch_type_error_witness :
    merge_value [] "retweet_count" (.int 3) (.str "-1") = (.int 3, some .typeError) :=
  C10_count_branch_type_error [] "retweet_count" (.int 3) (.str "-1")
    rfl rfl rfl rfl (Or.inr (by simp [parse_as_number, str_isnumeric]))

/-! ### Scalar facts used for the merge algebra -/

theorem beq_comm_dec {α : Type} [DecidableEq α] (x y : α) : (x == y) = (y == x) := by
  by_cases h : x = y
  · subst h
    rfl
  · rw [beq_eq_false_iff_ne.mpr h, beq_eq_false_iff_ne.mpr (Ne.symm h)]

theorem pyEq_refl_scalar (v : JValue) (h : isContainer v = false) : pyEq v v = true := by
  cases v <;> first | exact Bool.noConfusion h | simp [pyEq]

theorem pyEq_symm_scalar (va vb : JValue) (ha : isContainer va = false)
    (hb : isContainer vb = false) : pyEq va vb = pyEq vb va := by
  cases va <;> cases vb <;>
    first
      | exact Bool.noConfusion ha
      | exact Bool.noConfusion hb
      | rfl
      | (simp only [pyEq]; exact beq_comm_dec _ _)

theorem parse_shape (v p : JValue) (h : parse_as_number v = some p) :
    (∃ n, p = .int n) ∨ (∃ b, p = .bool b) := by
  cases v <;> simp [parse_as_number] at h
  · exact Or.inr ⟨_, h.symm⟩
  · exact Or.inl ⟨_, h.symm⟩
  · rcases h with ⟨-, rfl⟩
    exact Or.inl ⟨_, rfl⟩

theorem parse_idem (v p : JValue) (h : parse_as_number v = some p) :
    parse_as_number p = some p := by
  rcases parse_shape v p h with ⟨n, rfl⟩ | ⟨b, rfl⟩ <;> rfl

theorem parse_scalar (v p : JValue) (h : parse_as_number v = some p) :
    isContainer p = false := by
  rcases parse_shape v p h with ⟨n, rfl⟩ | ⟨b, rfl⟩ <;> rfl

theorem parse_not_null (v p : JValue) (h : parse_as_number v = some p) :
    isNull v = false := by
  cases v <;> simp [parse_as_number] at h <;> rfl

theorem pyEq_iff_numval (p q : JValue)
    (hp : (∃ n, p = .int n) ∨ (∃ b, p = .bool b))
    (hq : (∃ n, q = .int n) ∨ (∃ b, q = .bool b)) :
    pyEq p q = true ↔ pyNumVal p = pyNumVal q := by
  rcases hp with ⟨n, rfl⟩ | ⟨b, rfl⟩ <;> rcases hq with ⟨m, rfl⟩ | ⟨c, rfl⟩
  · simp [pyEq, pyNumVal]
  · cases c <;> simp [pyEq, pyNumVal]
  · cases b <;> simp [pyEq, pyNumVal]
  · cases b <;> cases c <;> simp [pyEq, pyNumVal]

theorem pyMax_numval_ge_left (p q : JValue) : pyNumVal p ≤ pyNumVal (pyMax p q) := by
  unfold pyMax
  split <;> omega

theorem pyMax_numval_ge_right (p q : JValue) : pyNumVal q ≤ pyNumVal (pyMax p q) := by
  unfold pyMax
  split <;> omega

theorem pyMax_eq_left_or_right (p q : JValue) : pyMax p q = p ∨ pyMax p q = q := by
  unfold pyMax
  split
  · exact Or.inr rfl
  · exact Or.inl rfl

theorem pyMax_comm_pyEq (p q : JValue)
    (hp : (∃ n, p = .int n) ∨ (∃ b, p = .bool b))
    (hq : (∃ n, q = .int n) ∨ (∃ b, q = .bool b)) :
    pyEq (pyMax p q) (pyMax q p) = true := by
  unfold pyMax
  rcases lt_trichotomy (pyNumVal p) (pyNumVal q) with h | h | h
  · rw [if_pos h, if_neg (by omega)]
    rcases hq with ⟨n, rfl⟩ | ⟨b, rfl⟩ <;> simp [pyEq]
  · rw [if_neg (by omega), if_neg (by omega)]
    exact (pyEq_iff_numval p q hp hq).mpr h
  · rw [if_neg (by omega), if_pos h]
    rcases hp with ⟨n, rfl⟩ | ⟨b, rfl⟩ <;> simp [pyEq]

theorem pyEqOpt_parse_symm (va vb : JValue) :
    pyEqOpt (parse_as_number va) (parse_as_number vb)
      = pyEqOpt (parse_as_number vb) (parse_as_number va) := by
  cases hpa : parse_as_number va <;> cases hpb : parse_as_number vb <;>
    simp only [pyEqOpt]
  exact pyEq_symm_scalar _ _ (parse_scalar va _ hpa) (parse_scalar vb _ hpb)

/-- Re-merging the stored result of a successful scalar `merge_value` with
the same incoming value changes nothing (per-key idempotence). -/
theorem merge_value_idem (path : List String) (k : String) (va vb r : JValue)
    (ha : isContainer va = false) (hb : isContainer vb = false)
    (h : merge_value path k va vb = (r, none)) :
    merge_value path k r vb = (r, none) := by
  rw [merge_value_scalar_eq path k va vb ha hb] at h
  by_cases h1 : pyEq va vb = true
  · rw [if_pos h1] at h
    obtain rfl : va = r := congrArg Prod.fst h
    rw [merge_value_scalar_eq path k va vb ha hb, if_pos h1]
  · rw [if_neg h1] at h
    by_cases h2 : str_endswith k "_count" = true
    · rw [if_pos h2] at h
      cases hpa : parse_as_number va with
      | none =>
        cases hpb : parse_as_number vb <;> rw [hpa, hpb] at h <;> simp at h
      | some pa =>
        cases hpb : parse_as_number vb with
        | none =>
          rw [hpa, hpb] at h
          simp at h
        | some pb =>
          rw [hpa, hpb] at h
          replace h : (pyMax pa pb, (none : Option PyErr)) = (r, none) := h
          obtain rfl : pyMax pa pb = r := congrArg Prod.fst h
          have hscal_r : isContainer (pyMax pa pb) = false := by
            rcases pyMax_eq_left_or_right pa pb with hh | hh <;> rw [hh]
            · exact parse_scalar va pa hpa
            · exact parse_scalar vb pb hpb
          rw [merge_value_scalar_eq path k _ vb hscal_r hb]
          by_cases hrb : pyEq (pyMax pa pb) vb = true
          · rw [if_pos hrb]
          · rw [if_neg hrb, if_pos h2]
            have hpr : parse_as_number (pyMax pa pb) = some (pyMax pa pb) := by
              rcases pyMax_eq_left_or_right pa pb with hh | hh <;> rw [hh]
              · exact parse_idem va pa hpa
              · exact parse_idem vb pb hpb
            rw [hpr, hpb]
            show (pyMax (pyMax pa pb) pb, (none : Option PyErr)) = _
            have habs : ∀ q : JValue, pyNumVal pb ≤ pyNumVal q → pyMax q pb = q := by
              intro q hq
              unfold pyMax
              rw [if_neg (by omega)]
            rw [habs _ (pyMax_numval_ge_right pa pb)]
    · rw [if_neg h2] at h
      by_cases h3 : k = "possibly_sensitive" ∨ k = "protected" ∨ k = "monetizable"
      · rw [if_pos h3] at h
        obtain rfl : va = r := congrArg Prod.fst h
        rw [merge_value_scalar_eq path k va vb ha hb,
          if_neg h1, if_neg h2, if_pos h3]
      · rw [if_neg h3] at h
        by_cases h4 : pyEqOpt (parse_as_number va) (parse_as_number vb) = true
        · rw [if_pos h4] at h
          cases hpa : parse_as_number va with
          | some pa =>
            rw [hpa] at h
            replace h : (pa, (none : Option PyErr)) = (r, none) := h
            obtain rfl : pa = r := congrArg Prod.fst h
            cases hpb : parse_as_number vb with
            | none =>
              rw [hpa, hpb] at h4
              exact absurd h4 (by simp [pyEqOpt])
            | some pb =>
              rw [hpa, hpb] at h4
              replace h4 : pyEq pa pb = true := h4
              rw [merge_value_scalar_eq path k pa vb (parse_scalar va pa hpa) hb]
              by_cases hrb : pyEq pa vb = true
              · rw [if_pos hrb]
              · rw [if_neg hrb, if_neg h2, if_neg h3]
                have hpr := parse_idem va pa hpa
                rw [if_pos (by rw [hpr, hpb]; exact h4), hpr]
                rfl
          | none =>
            rw [hpa] at h
            replace h : (JValue.null, (none : Option PyErr)) = (r, none) := h
            obtain rfl : JValue.null = r := congrArg Prod.fst h
            cases hpb : parse_as_number vb with
            | some pb =>
              rw [hpa, hpb] at h4
              exact absurd h4 (by simp [pyEqOpt])
            | none =>
              rw [merge_value_scalar_eq path k .null vb rfl hb]
              by_cases hrb : pyEq .null vb = true
              · rw [if_pos hrb]
              · rw [if_neg hrb, if_neg h2, if_neg h3]
                rw [if_pos (by rw [hpb]; rfl)]
                rfl
        · rw [if_neg h4] at h
          by_cases h5 : (isNull va && !(isNull vb)) = true
          · rw [if_pos h5] at h
            obtain rfl : vb = r := congrArg Prod.fst h
            rw [merge_value_scalar_eq path k vb vb hb hb,
              if_pos (pyEq_refl_scalar vb hb)]
          · rw [if_neg h5] at h
            by_cases h6 : (!(isNull va) && isNull vb) = true
            · rw [if_pos h6] at h
              obtain rfl : va = r := congrArg Prod.fst h
              rw [merge_value_scalar_eq path k va vb ha hb,
                if_neg h1, if_neg h2, if_neg h3, if_neg h4, if_neg h5, if_pos h6]
            · rw [if_neg h6] at h
              simp at h

/-- On scalars, when both merge orders succeed and the known-volatile keys
agree, the two results are equal under Python `==` (per-key commutativity up
to numeric coercion). -/
theorem merge_value_comm (path : List String) (k : String) (va vb r1 r2 : JValue)
    (ha : isContainer va = false) (hb : isContainer vb = false)
    (hvol : (k = "possibly_sensitive" ∨ k = "protected" ∨ k = "monetizable") →
      pyEq va vb = true)
    (h1 : merge_value path k va vb = (r1, none))
    (h2 : merge_value path k vb va = (r2, none)) :
    pyEq r1 r2 = true := by
  rw [merge_value_scalar_eq path k va vb ha hb] at h1
  rw [merge_value_scalar_eq path k vb va hb ha] at h2
  by_cases he : pyEq va vb = true
  · have he2 : pyEq vb va = true := by
      rw [← pyEq_symm_scalar va vb ha hb]
      exact he
    rw [if_pos he] at h1
    rw [if_pos he2] at h2
    obtain rfl : va = r1 := congrArg Prod.fst h1
    obtain rfl : vb = r2 := congrArg Prod.fst h2
    exact he
  · have he2 : ¬(pyEq vb va = true) := by
      rw [← pyEq_symm_scalar va vb ha hb]
      exact he
    rw [if_neg he] at h1
    rw [if_neg he2] at h2
    by_cases hc : str_endswith k "_count" = true
    · rw [if_pos hc] at h1 h2
      cases hpa : parse_as_number va with
      | none =>
        cases hpb : parse_as_number vb <;> rw [hpa, hpb] at h1 <;> simp at h1
      | some pa =>
        cases hpb : parse_as_number vb with
        | none =>
          rw [hpa, hpb] at h1
          simp at h1
        | some pb =>
          rw [hpa, hpb] at h1
          rw [hpb, hpa] at h2
          replace h1 : (pyMax pa pb, (none : Option PyErr)) = (r1, none) := h1
          replace h2 : (pyMax pb pa, (none : Option PyErr)) = (r2, none) := h2
          obtain rfl : pyMax pa pb = r1 := congrArg Prod.fst h1
          obtain rfl : pyMax pb pa = r2 := congrArg Prod.fst h2
          exact pyMax_comm_pyEq pa pb (parse_shape va pa hpa) (parse_shape vb pb hpb)
    · rw [if_neg hc] at h1 h2
      by_cases hv : k = "possibly_sensitive" ∨ k = "protected" ∨ k = "monetizable"
      · exact absurd (hvol hv) he
      · rw [if_neg hv] at h1 h2
        by_cases hp : pyEqOpt (parse_as_number va) (parse_as_number vb) = true
        · have hp2 : pyEqOpt (parse_as_number vb) (parse_as_number va) = true := by
            rw [pyEqOpt_parse_symm]
            exact hp
          rw [if_pos hp] at h1
          rw [if_pos hp2] at h2
          cases hpa : parse_as_number va with
          | some pa =>
            cases hpb : parse_as_number vb with
            | none =>
              rw [hpa, hpb] at hp
              exact absurd hp (by simp [pyEqOpt])
            | some pb =>
              rw [hpa] at h1
              rw [hpb] at h2
              replace h1 : (pa, (none : Option PyErr)) = (r1, none) := h1
              replace h2 : (pb, (none : Option PyErr)) = (r2, none) := h2
              obtain rfl : pa = r1 := congrArg Prod.fst h1
              obtain rfl : pb = r2 := congrArg Prod.fst h2
              rw [hpa, hpb] at hp
              exact hp
          | none =>
            cases hpb : parse_as_number vb with
            | some pb =>
              rw [hpa, hpb] at hp
              exact absurd hp (by simp [pyEqOpt])
            | none =>
              rw [hpa] at h1
              rw [hpb] at h2
              replace h1 : (JValue.null, (none : Option PyErr)) = (r1, none) := h1
              replace h2 : (JValue.null, (none : Option PyErr)) = (r2, none) := h2
              obtain rfl : JValue.null = r1 := congrArg Prod.fst h1
              obtain rfl : JValue.null = r2 := congrArg Prod.fst h2
              rfl
        · have hp2 : ¬(pyEqOpt (parse_as_number vb) (parse_as_number va) = true) := by
            rw [pyEqOpt_parse_symm]
            exact hp
          rw [if_neg hp] at h1
          rw [if_neg hp2] at h2
          by_cases hn1 : (isNull va && !(isNull vb)) = true
          · rw [if_pos hn1] at h1
            obtain rfl : vb = r1 := congrArg Prod.fst h1
            simp only [Bool.and_eq_true, Bool.not_eq_true'] at hn1
            rw [if_neg (by simp [hn1.1, hn1.2]), if_pos (by simp [hn1.1, hn1.2])] at h2
            obtain rfl : vb = r2 := congrArg Prod.fst h2
            exact pyEq_refl_scalar vb hb
          · by_cases hn2 : (!(isNull va) && isNull vb) = true
            · rw [if_neg hn1, if_pos hn2] at h1
              obtain rfl : va = r1 := congrArg Prod.fst h1
              simp only [Bool.and_eq_true, Bool.not_eq_true'] at hn2
              rw [if_pos (by simp [hn2.1, hn2.2])] at h2
              obtain rfl : va = r2 := congrArg Prod.fst h2
              exact pyEq_refl_scalar va ha
            · rw [if_neg hn1, if_neg hn2] at h1
              simp at h1

/-- A record whose field values are all scalars (no nested dicts or lists). -/
def flatScalar (d : JObj) : Prop := ∀ p ∈ d, isContainer p.2 = false

theorem flat_pyGet (d : JObj) (k : String) (v : JValue) (hf : flatScalar d)
    (h : pyGet d k = some v) : isContainer v = false := by
  induction d with
  | nil => simp [pyGet] at h
  | cons p tl ih =>
    obtain ⟨k2, v2⟩ := p
    by_cases h2 : k2 = k
    · subst h2
      simp only [pyGet, if_pos rfl] at h
      have hv : v2 = v := by simpa using h
      exact hv ▸ hf (k2, v2) (List.mem_cons_self ..)
    · simp only [pyGet, if_neg h2] at h
      exact ih (fun p hp => hf p (List.mem_cons_of_mem _ hp)) h

/-- Folding `b` into a dict that already absorbs every entry of `b` is the
identity. -/
theorem merge_dicts_refold (m : JObj) : ∀ b : JObj,
    (∀ k vb, (k, vb) ∈ b →
      ∃ r, pyGet m k = some r ∧ merge_value [] k r vb = (r, none)) →
    merge_dicts m b [] = (m, none) := by
  intro b
  induction b with
  | nil => intro _; exact merge_dicts_nil m []
  | cons p rest ih =>
    obtain ⟨k, vb⟩ := p
    intro h
    obtain ⟨r, hr, hmv⟩ := h k vb (List.mem_cons_self ..)
    rw [merge_dicts_cons_ok m rest [] k r vb hr (by rw [hmv])]
    have hv1 : (merge_value [] k r vb).1 = r := by rw [hmv]
    rw [hv1, pySet_self m k r hr]
    exact ih (fun k2 vb2 hmem => h k2 vb2 (List.mem_cons_of_mem _ hmem))

/-- C2 (amended): for records of scalar fields with distinct keys, agreeing
under `==` on the volatile keys, whenever both merge orders succeed the two
results bind the same keys to values equal under Python `==` (numeric-string
and integer forms collapse), and the merge is idempotent:
`merge_dicts (merge_dicts a b) b = merge_dicts a b` exactly. -/
theorem C2_merge_comm_idem (a b ma mb : JObj)
    (hfa : flatScalar a) (hfb : flatScalar b)
    (hna : (a.map Prod.fst).Nodup) (hnb : (b.map Prod.fst).Nodup)
    (hvol : ∀ k va vb,
      (k = "possibly_sensitive" ∨ k = "protected" ∨ k = "monetizable") →
      pyGet a k = some va → pyGet b k = some vb → pyEq va vb = true)
    (h1 : merge_dicts a b [] = (ma, none))
    (h2 : merge_dicts b a [] = (mb, none)) :
    (∀ k, pyEqOpt (pyGet ma k) (pyGet mb k) = true)
    ∧ merge_dicts ma b [] = (ma, none) := by
  have hca := merge_dicts_lookup [] b a ma hnb h1
  have hcb := merge_dicts_lookup [] a b mb hna h2
  constructor
  · intro k
    rw [(hca k).1, (hcb k).1]
    cases hga : pyGet a k with
    | none =>
      cases hgb : pyGet b k with
      | none => rfl
      | some vb =>
        show pyEq vb vb = true
        exact pyEq_refl_scalar vb (flat_pyGet b k vb hfb hgb)
    | some va =>
      cases hgb : pyGet b k with
      | none =>
        show pyEq va va = true
        exact pyEq_refl_scalar va (flat_pyGet a k va hfa hga)
      | some vb =>
        show pyEq (merge_value [] k va vb).1 (merge_value [] k vb va).1 = true
        have hmv1 : merge_value [] k va vb = ((merge_value [] k va vb).1, none) := by
          rw [← (hca k).2 va vb hga hgb]
        have hmv2 : merge_value [] k vb va = ((merge_value [] k vb va).1, none) := by
          rw [← (hcb k).2 vb va hgb hga]
        exact merge_value_comm [] k va vb _ _
          (flat_pyGet a k va hfa hga) (flat_pyGet b k vb hfb hgb)
          (fun hv => hvol k va vb hv hga hgb) hmv1 hmv2
  · apply merge_dicts_refold
    intro k vb hmem
    have hgb : pyGet b k = some vb := pyGet_of_mem_nodup b k vb hmem hnb
    have hbscal : isContainer vb = false := flat_pyGet b k vb hfb hgb
    cases hga : pyGet a k with
    | none =>
      refine ⟨vb, ?_, ?_⟩
      · rw [(hca k).1, hga, hgb]
        rfl
      · rw [merge_value_scalar_eq [] k vb vb hbscal hbscal,
          if_pos (pyEq_refl_scalar vb hbscal)]
    | some va =>
      refine ⟨(merge_value [] k va vb).1, ?_, ?_⟩
      · rw [(hca k).1, hga, hgb]
        rfl
      · apply merge_value_idem [] k va vb _
          (flat_pyGet a k va hfa hga) hbscal
        rw [← (hca k).2 va vb hga hgb]

/-- C2 counterexample: two records with no genuinely conflicting fields (both
merge orders succeed without a conflict), whose merge results nevertheless
differ in their field values in both orders: the volatile key
`possibly_sensitive` keeps the first record's value, and list-valued fields
append in merge order. -/
theorem C2_counterexample :
    merge_dicts [("possibly_sensitive", .bool true), ("xs", .arr [.int 1])]
        [("possibly_sensitive", .bool false), ("xs", .arr [.int 2])] []
      = ([("possibly_sensitive", .bool true), ("xs", .arr [.int 1, .int 2])], none)
    ∧ merge_dicts [("possibly_sensitive", .bool false), ("xs", .arr [.int 2])]
        [("possibly_sensitive", .bool true), ("xs", .arr [.int 1])] []
      = ([("possibly_sensitive", .bool false), ("xs", .arr [.int 2, .int 1])], none)
    ∧ pyEq (.bool true) (.bool false) = false
    ∧ pyEq (.arr [.int 1, .int 2]) (.arr [.int 2, .int 1]) = false := by
  refine ⟨?_, ?_, rfl, rfl⟩ <;>
    simp [merge_dicts, merge_value, merge_lists, merge_list_scan, equal_ignore_types,
      pyGet, pySet, pyEq, pyEqArr, pyEqEntries, parse_as_number, str_endswith,
      pyEqOpt, isNull, equalIgnoreTypesEntries, equalIgnoreTypesList, str_isnumeric]

/-- Witness for `C2_merge_comm_idem` at a concrete input. -/
theorem C2_merge_comm_idem_witness :
    pyEqOpt
      (pyGet (merge_dicts [("lang", .str "en")]
        [("lang", .str "en"), ("id", .int 5)] []).1 "id")
      (pyGet (merge_dicts [("lang", .str "en"), ("id", .int 5)]
        [("lang", .str "en")] []).1 "id") = true := by
  have h1 : merge_dicts [("lang", .str "en")] [("lang", .str "en"), ("id", .int 5)] []
      = ([("lang", .str "en"), ("id", .int 5)], none) := by
    simp [merge_dicts, merge_value, pyGet, pySet, pyEq]
  have h2 : merge_dicts [("lang", .str "en"), ("id", .int 5)] [("lang", .str "en")] []
      = ([("lang", .str "en"), ("id", .int 5)], none) := by
    simp [merge_dicts, merge_value, pyGet, pySet, pyEq]
  have h := (C2_merge_comm_idem [("lang", .str "en")]
    [("lang", .str "en"), ("id", .int 5)] _ _
    (by simp [flatScalar, isContainer])
    (by simp [flatScalar, isContainer])
    (by simp) (by simp)
    (by
      intro k va vb hv hga hgb
      rcases hv with rfl | rfl | rfl <;> simp [pyGet] at hga)
    (by rw [h1]) (by rw [h2])).1 "id"
  rw [h1, h2]
  exact h

set_option maxHeartbeats 1000000 in
/-- Like `merge_value_scalar_eq`, but only the stored value needs to be a
scalar: the dict-dict and list-list branches need containers on both sides. -/
theorem merge_value_scalar_left (path : List String) (k : String) (va vb : JValue)
    (ha : isContainer va = false) :
    merge_value path k va vb =
      (if pyEq va vb then (va, none)
       else if str_endswith k "_count" then
         match parse_as_number va, parse_as_number vb with
         | some pa, some pb => (pyMax pa pb, none)
         | _, _ => (va, some .typeError)
       else if k = "possibly_sensitive" ∨ k = "protected" ∨ k = "monetizable" then
         (va, none)
       else if pyEqOpt (parse_as_number va) (parse_as_number vb) then
         ((parse_as_number va).getD .null, none)
       else if isNull va && !(isNull vb) then (vb, none)
       else if !(isNull va) && isNull vb then (va, none)
       else (va, some (.conflict (path ++ [k])))) := by
  cases va <;> cases vb <;>
    first
      | (simp only [merge_value.eq_def]; done)
      | exact Bool.noConfusion ha

theorem parse_none_of_container (v : JValue) (h : isContainer v = true) :
    parse_as_number v = none := by
  cases v <;> first | rfl | exact Bool.noConfusion h

/-- If the stored value is a scalar, the merged value is a scalar as well (in
particular the `None`-replacement branch only installs a parsed number). -/
theorem merge_value_result_scalar_left (path : List String) (k : String)
    (va vb : JValue) (ha : isContainer va = false) :
    isContainer (merge_value path k va vb).1 = false := by
  rw [merge_value_scalar_left path k va vb ha]
  by_cases h1 : pyEq va vb = true
  · rw [if_pos h1]
    exact ha
  · rw [if_neg h1]
    by_cases h2 : str_endswith k "_count" = true
    · rw [if_pos h2]
      cases hpa : parse_as_number va with
      | none => cases parse_as_number vb <;> exact ha
      | some pa =>
        cases hpb : parse_as_number vb with
        | none => exact ha
        | some pb =>
          show isContainer (pyMax pa pb) = false
          rcases pyMax_eq_left_or_right pa pb with hh | hh <;> rw [hh]
          · exact parse_scalar va pa hpa
          · exact parse_scalar vb pb hpb
    · rw [if_neg h2]
      by_cases h3 : k = "possibly_sensitive" ∨ k = "protected" ∨ k = "monetizable"
      · rw [if_pos h3]
        exact ha
      · rw [if_neg h3]
        by_cases h4 : pyEqOpt (parse_as_number va) (parse_as_number vb) = true
        · rw [if_pos h4]
          cases hpa : parse_as_number va with
          | none => rfl
          | some pa => exact parse_scalar va pa hpa
        · rw [if_neg h4]
          by_cases h5 : (isNull va && !(isNull vb)) = true
          · rw [if_pos h5]
            show isContainer vb = false
            -- here `va` is `None`, so it does not parse; `pyEqOpt` being false
            -- forces `vb` to parse, hence `vb` is a scalar
            simp only [Bool.and_eq_true, Bool.not_eq_true'] at h5
            have hva_none : parse_as_number va = none := by
              cases va <;> first | rfl | exact Bool.noConfusion h5.1
            cases hpb : parse_as_number vb with
            | none =>
              rw [hva_none, hpb] at h4
              exact absurd rfl h4
            | some pb => exact parse_some_not_container vb pb hpb
          · rw [if_neg h5]
            by_cases h6 : (!(isNull va) && isNull vb) = true
            · rw [if_pos h6]
              exact ha
            · rw [if_neg h6]
              exact ha

/-- If the stored value is a scalar and the per-key merge raises, the merged
value is the stored one and the exception is the `TypeError` or the conflict
at this key. -/
theorem merge_value_err_left (path : List String) (k : String) (va vb : JValue)
    (e : PyErr) (ha : isContainer va = false)
    (h : (merge_value path k va vb).2 = some e) :
    (merge_value path k va vb).1 = va
    ∧ (e = .typeError ∨ e = .conflict (path ++ [k])) := by
  rw [merge_value_scalar_left path k va vb ha] at h ⊢
  by_cases h1 : pyEq va vb = true
  · rw [if_pos h1] at h ⊢
    simp at h
  · rw [if_neg h1] at h ⊢
    by_cases h2 : str_endswith k "_count" = true
    · rw [if_pos h2] at h ⊢
      cases hpa : parse_as_number va <;> cases hpb : parse_as_number vb <;> simp_all
    · rw [if_neg h2] at h ⊢
      by_cases h3 : k = "possibly_sensitive" ∨ k = "protected" ∨ k = "monetizable"
      · rw [if_pos h3] at h ⊢
        simp at h
      · rw [if_neg h3] at h ⊢
        by_cases h4 : pyEqOpt (parse_as_number va) (parse_as_number vb) = true
        · rw [if_pos h4] at h ⊢
          simp at h
        · rw [if_neg h4] at h ⊢
          by_cases h5 : (isNull va && !(isNull vb)) = true
          · rw [if_pos h5] at h ⊢
            simp at h
          · rw [if_neg h5] at h ⊢
            by_cases h6 : (!(isNull va) && isNull vb) = true
            · rw [if_pos h6] at h ⊢
              simp at h
            · rw [if_neg h6] at h ⊢
              simp only [Prod.snd] at h
              obtain rfl : e = .conflict (path ++ [k]) := by simpa using h.symm
              exact ⟨rfl, Or.inr rfl⟩

/-- When `merge_dicts a b` raises a top-level conflict at key `k` (and the
stored values at `b`'s keys are scalars), that key is one of `b`'s keys and
the merged dict still holds the previously stored value there. -/
theorem merge_dicts_conflict_key :
    ∀ (b a m : JObj) (k : String),
      (∀ p ∈ b, ∀ va, pyGet a p.1 = some va → isContainer va = false) →
      (b.map Prod.fst).Nodup →
      merge_dicts a b [] = (m, some (.conflict [k])) →
      k ∈ b.map Prod.fst ∧ pyGet m k = pyGet a k := by
  intro b
  induction b with
  | nil =>
    intro a m k _ _ h
    rw [merge_dicts_nil] at h
    simp at h
  | cons p0 rest ih =>
    obtain ⟨key, vb⟩ := p0
    intro a m k hflat hnd h
    simp only [List.map_cons, List.nodup_cons] at hnd
    cases hga : pyGet a key with
    | none =>
      rw [merge_dicts_cons_absent a rest [] key vb hga] at h
      have hflat2 : ∀ p ∈ rest, ∀ va, pyGet (pySet a key vb) p.1 = some va →
          isContainer va = false := by
        intro p hp va hv
        have hne : key ≠ p.1 := by
          rintro rfl
          exact hnd.1 (List.mem_map_of_mem Prod.fst hp)
        rw [pyGet_pySet_ne a key p.1 vb hne] at hv
        exact hflat p (List.mem_cons_of_mem _ hp) va hv
      obtain ⟨hkmem, hk⟩ := ih (pySet a key vb) m k hflat2 hnd.2 h
      have hkne : key ≠ k := by
        rintro rfl
        exact hnd.1 hkmem
      refine ⟨by simp [hkmem], ?_⟩
      rw [hk, pyGet_pySet_ne a key k vb hkne]
    | some va0 =>
      have hva0 : isContainer va0 = false :=
        hflat (key, vb) (List.mem_cons_self ..) va0 hga
      cases hr2 : (merge_value [] key va0 vb).2 with
      | some e =>
        rw [merge_dicts_cons_err a rest [] key va0 vb e hga hr2] at h
        have hm : pySet a key (merge_value [] key va0 vb).1 = m := congrArg Prod.fst h
        have he : some e = some (PyErr.conflict [k]) := congrArg Prod.snd h
        obtain rfl : e = .conflict [k] := by simpa using he
        obtain ⟨hv1, hdisj⟩ := merge_value_err_left [] key va0 vb _ hva0 hr2
        rcases hdisj with htype | hconf
        · exact absurd htype (by simp)
        · have hkk : k = key := by simpa using hconf
          subst hkk
          rw [hv1, pySet_self a k va0 hga] at hm
          subst hm
          exact ⟨by simp, rfl⟩
      | none =>
        rw [merge_dicts_cons_ok a rest [] key va0 vb hga hr2] at h
        have hflat2 : ∀ p ∈ rest, ∀ va,
            pyGet (pySet a key (merge_value [] key va0 vb).1) p.1 = some va →
            isContainer va = false := by
          intro p hp va hv
          have hne : key ≠ p.1 := by
            rintro rfl
            exact hnd.1 (List.mem_map_of_mem Prod.fst hp)
          rw [pyGet_pySet_ne a key p.1 _ hne] at hv
          exact hflat p (List.mem_cons_of_mem _ hp) va hv
        obtain ⟨hkmem, hk⟩ := ih _ m k hflat2 hnd.2 h
        have hkne : key ≠ k := by
          rintro rfl
          exact hnd.1 hkmem
        refine ⟨by simp [hkmem], ?_⟩
        rw [hk, pyGet_pySet_ne a key k _ hkne]

/-! ## `add_known_tweet` (parser.py lines 529-551) -/

/-- Lookup in the canonical tweet store (id → tweet dict). -/
def storeGet (d : List (String × JObj)) (k : String) : Option JObj :=
  match d with
  | [] => none
  | (k2, v) :: tl => if k2 = k then some v else storeGet tl k

/-- `store[k] = v` on the canonical tweet store. -/
def storeSet (d : List (String × JObj)) (k : String) (v : JObj) :
    List (String × JObj) :=
  match d with
  | [] => [(k, v)]
  | (k2, v2) :: tl => if k2 = k then (k2, v) :: tl else (k2, v2) :: storeSet tl k v

/-- `add_known_tweet`: adds `new_tweet` to `known_tweets`, merging with a
previously cached tweet; a `merge_dicts` exception is caught (the partially
merged dict stays in the store) and the pass continues.  A `None` tweet marks
the id with `api_returned_null` instead. -/
def add_known_tweet (known_tweets : List (String × JObj)) (tweet_id : String)
    (new_tweet : Option JObj) : List (String × JObj) :=
  match new_tweet with
  | some nt =>
    match storeGet known_tweets tweet_id with
    | some old =>
      if pyEq (.obj old) (.obj nt) then known_tweets
      else storeSet known_tweets tweet_id (merge_dicts old nt []).1
    | none => storeSet known_tweets tweet_id nt
  | none =>
    match storeGet known_tweets tweet_id with
    | some old =>
      storeSet known_tweets tweet_id (pySet old "api_returned_null" (.bool true))
    | none =>
      storeSet known_tweets tweet_id
        [("id", .str tweet_id), ("id_str", .str tweet_id),
         ("api_returned_null", .bool true)]

/-- C3 counterexample: a failed re-merge does *not* leave the cached record
unchanged.  Cached record `{y: 1}` merged with `{x: 5, y: 2}`: the merge
raises the conflict at `y`, but `x: 5` was already merged in, so the stored
record afterwards is `{y: 1, x: 5}`, not the pre-attempt `{y: 1}`. -/
theorem C3_counterexample :
    add_known_tweet [("1", [("y", .int 1)])] "1" (some [("x", .int 5), ("y", .int 2)])
      = [("1", [("y", .int 1), ("x", .int 5)])]
    ∧ merge_dicts [("y", .int 1)] [("x", .int 5), ("y", .int 2)] []
      = ([("y", .int 1), ("x", .int 5)], some (.conflict ["y"]))
    ∧ [("y", JValue.int 1), ("x", JValue.int 5)] ≠ [("y", JValue.int 1)] := by
  refine ⟨?_, ?_, ?_⟩
  · simp [add_known_tweet, storeGet, storeSet, merge_dicts, merge_value, pyGet, pySet,
      pyEq, pyEqEntries, parse_as_number, str_endswith, pyEqOpt, isNull, str_isnumeric]
  · simp [merge_dicts, merge_value, pyGet, pySet, pyEq, pyEqEntries,
      parse_as_number, str_endswith, pyEqOpt, isNull, str_isnumeric]
  · intro h
    have := congrArg List.length h
    simp at this

/-- C3 (amended): when the re-merge of a cached record raises a top-level
merge conflict, the caller catches it and stores the partially merged record
(the batch pass continues); the field at which the conflict was raised keeps
its previously stored value, but fields merged before the conflict remain
merged. -/
theorem C3_conflict_caught_keeps_conflicting_field
    (known : List (String × JObj)) (tweet_id : String)
    (old nt m : JObj) (k : String)
    (hold : storeGet known tweet_id = some old)
    (hne : pyEq (.obj old) (.obj nt) = false)
    (hflat : ∀ p ∈ nt, ∀ va, pyGet old p.1 = some va → isContainer va = false)
    (hnd : (nt.map Prod.fst).Nodup)
    (hm : merge_dicts old nt [] = (m, some (.conflict [k]))) :
    add_known_tweet known tweet_id (some nt) = storeSet known tweet_id m
    ∧ pyGet m k = pyGet old k := by
  constructor
  · unfold add_known_tweet
    rw [hold]
    simp only [hne, Bool.false_eq_true, if_false, hm]
  · exact (merge_dicts_conflict_key nt old m k hflat hnd hm).2

/-- Witness for `C3_conflict_caught_keeps_conflicting_field` at a concrete
input. -/
theorem C3_conflict_caught_witness :
    add_known_tweet [("1", [("y", .int 1)])] "1" (some [("x", .int 5), ("y", .int 2)])
      = storeSet [("1", [("y", .int 1)])] "1" [("y", .int 1), ("x", .int 5)]
    ∧ pyGet [("y", JValue.int 1), ("x", JValue.int 5)] "y"
        = pyGet [("y", JValue.int 1)] "y" := by
  have h := C3_conflict_caught_keeps_conflicting_field
    [("1", [("y", .int 1)])] "1" [("y", .int 1)] [("x", .int 5), ("y", .int 2)]
    [("y", .int 1), ("x", .int 5)] "y"
    rfl rfl
    (by
      intro p hp va hv
      simp only [List.mem_cons, List.mem_singleton, List.not_mem_nil, or_false] at hp
      rcases hp with rfl | rfl
      · simp [pyGet] at hv
      · have : JValue.int 1 = va := by simpa [pyGet] using hv
        rw [← this]
        rfl)
    (by simp)
    (by simp [merge_dicts, merge_value, pyGet, pySet, pyEq, pyEqEntries,
        parse_as_number, str_endswith, pyEqOpt, isNull, str_isnumeric])
  exact h

/-! ## `collect_tweet_references` (parser.py lines 553-607) and the
selection of `download_tweets` (parser.py lines 1401-1435) -/

/-- `unwrap_tweet`: unwraps the `{"tweet": {...}}` layer of archive files.
(A non-dict value under `"tweet"` would crash every later subscript in
Python; the archive always nests a dict, and we keep the outer dict in that
impossible case.) -/
def unwrap_tweet (t : JObj) : JObj :=
  match pyGet t "tweet" with
  | some (.obj inner) => inner
  | _ => t

/-- `[0-9A-Za-z_]`, the word characters of the status-URL regex. -/
def isWordChar (c : Char) : Bool :=
  c.isAlpha || c.isDigit || c = '_'

/-- Strips an expected leading character sequence, returning the remainder. -/
def dropPfx : List Char → List Char → Option (List Char)
  | [], rest => some rest
  | _, [] => none
  | p :: ps, c :: cs => if p = c then dropPfx ps cs else none

def startsWithChars : List Char → List Char → Bool
  | [], _ => true
  | _, [] => false
  | p :: ps, c :: cs => p = c && startsWithChars ps cs

/-- `re.match(r'^https://twitter.com/([0-9A-Za-z_]*)/status/(\d+)$', s)`:
the handle group and the status-id group on success. -/
def matchStatusUrl (s : String) : Option (String × String) :=
  match dropPfx "https://twitter.com/".data s.data with
  | none => none
  | some rest =>
    let handle := rest.takeWhile isWordChar
    let rest2 := rest.dropWhile isWordChar
    match dropPfx "/status/".data rest2 with
    | none => none
    | some digits =>
      if !digits.isEmpty && digits.all Char.isDigit then
        some (⟨handle⟩, ⟨digits⟩)
      else none

example : matchStatusUrl "https://twitter.com/some_user/status/123" = some ("some_user", "123") := rfl

example : matchStatusUrl "https://twitter.com/some_user/status/123x" = none := rfl

/-- `tweet_id in known_tweets`. -/
def storeContains (known : List (String × JObj)) (tweet_id : String) : Bool :=
  (storeGet known tweet_id).isSome

/-- `tweet_ids.add(v)` on the set of collected references, as a list with
set-membership semantics (Python sets are unordered; only membership is
claimed). -/
def setAdd (ids : List JValue) (v : JValue) : List JValue :=
  if pyListContains ids v then ids else ids ++ [v]

/-- The `for url in tweet['entities']['urls']` loop collecting quoted-tweet
ids that are not yet known. -/
def collectQuoted (known : List (String × JObj)) :
    List JValue → List JValue → List JValue × Option PyErr
  | ids, [] => (ids, none)
  | ids, u :: rest =>
    match u with
    | .obj uo =>
      if pyContains uo "url" && pyContains uo "expanded_url" then
        match pyGet uo "expanded_url" with
        | some (.str ex) =>
          match matchStatusUrl ex with
          | some q =>
            if storeContains known q.2 then collectQuoted known ids rest
            else collectQuoted known (setAdd ids (.str q.2)) rest
          | none => collectQuoted known ids rest
        | some _ => (ids, some .typeError)
        | none => (ids, some (.keyError "expanded_url"))
      else collectQuoted known ids rest
    | _ => collectQuoted known ids rest

/-- Lines 582-589 and 595-602: add the tweet's own id (`id_str`, falling back
to `str(tweet['id'])` when `id_str` is `None`; `tweet['id_str']` raises
`KeyError` when absent). -/
def addOwnId (tweet : JObj) (ids : List JValue) : List JValue × Option PyErr :=
  match pyGet tweet "id_str" with
  | none => (ids, some (.keyError "id_str"))
  | some .null =>
    if pyContains tweet "id" then
      match pyGet tweet "id" with
      | some .null => (ids, none)
      | some idv => (setAdd ids (.str (pyStr idv)), none)
      | none => (ids, none)
    else (ids, none)
  | some idv => (setAdd ids idv, none)

/-- The quoted-tweets block (`# Collect quoted tweets`, lines 562-571). -/
def collectStep1 (tweet : JObj) (known_tweets : List (String × JObj)) :
    List JValue × Option PyErr :=
  if has_path (.obj tweet) ["entities", "urls"] then
    match pyGet tweet "entities" with
    | some (.obj ents) =>
      match pyGet ents "urls" with
      | some (.arr urls) => collectQuoted known_tweets [] urls
      | some _ => ([], some .typeError)
      | none => ([], some (.keyError "urls"))
    | _ => ([], some .typeError)
  else ([], none)

/-- The previous-tweet-in-conversation block (lines 573-577).  A non-string
reply id is never a key of the string-keyed store, so `not in known_tweets`
holds for it. -/
def collectReply (tweet : JObj) (known_tweets : List (String × JObj))
    (ids : List JValue) : List JValue :=
  if has_path (.obj tweet) ["in_reply_to_status_id_str"] then
    match pyGet tweet "in_reply_to_status_id_str" with
    | some prev =>
      match prev with
      | .str s => if storeContains known_tweets s then ids else setAdd ids prev
      | _ => setAdd ids prev
    | none => ids
  else ids

/-- The retweet block (lines 579-589): a retweeted tweet adds its *own* id so
the full content can be re-fetched. -/
def collectRetweet (tweet : JObj) (ids : List JValue) : List JValue × Option PyErr :=
  if !(pyContains tweet "from_api") then
    match pyGet tweet "full_text" with
    | some (.str ft) =>
      if startsWithChars "RT @".data ft.data then addOwnId tweet ids
      else (ids, none)
    | some _ => (ids, some .attributeError)
    | none => (ids, none)
  else (ids, none)

/-- The missing-alt-text block (lines 591-602): again adds the tweet's own id. -/
def collectAltText (tweet : JObj) (ids : List JValue) : List JValue × Option PyErr :=
  if !(pyContains tweet "download_with_alt_text")
      && has_path (.obj tweet) ["entities", "media"] then
    addOwnId tweet ids
  else (ids, none)

/-- `collect_tweet_references`: the set of referenced tweet ids a tweet needs
(quoted tweets and reply parents not yet known, plus the tweet's own id for
the retweet-refetch and missing-alt-text cases). -/
def collect_tweet_references (tweet : JObj) (known_tweets : List (String × JObj)) :
    List JValue × Option PyErr :=
  let tweet := unwrap_tweet tweet
  if !(pyContains tweet "from_archive") then ([], none)
  else
    match collectStep1 tweet known_tweets with
    | (ids, some e) => (ids, some e)
    | (ids, none) =>
      match collectRetweet tweet (collectReply tweet known_tweets ids) with
      | (ids, some e) => (ids, some e)
      | (ids, none) =>
        match collectAltText tweet ids with
        | (ids, some e) => (ids, some e)
        | (ids, none) =>
          if pyListContains ids .null then (ids, some .noneReference)
          else (ids, none)

/-- The availability test of `download_tweets`:
`'api_returned_null' in known_tweet and known_tweet['api_returned_null'] is True`. -/
def isApiReturnedNull (t : JObj) : Bool :=
  match pyGet t "api_returned_null" with
  | some (.bool true) => true
  | _ => false

/-- The partition step of `download_tweets` (lines 1414-1424): completely
new ids, ids known to be unavailable, and ids whose cached tweet can be
extended.  (The store holds dicts, so the `known_tweet is None` branch of the
source is vacuous here.) -/
def downloadPartition (known : List (String × JObj)) :
    List String → List String × List String × List String
  | [] => ([], [], [])
  | tweet_id :: rest =>
    let p := downloadPartition known rest
    match storeGet known tweet_id with
    | none => (tweet_id :: p.1, p.2.1, p.2.2)
    | some t =>
      if isApiReturnedNull t then (p.1, tweet_id :: p.2.1, p.2.2)
      else (p.1, p.2.1, tweet_id :: p.2.2)

/-- Line 1435: the ids actually downloaded are the completely new ones plus
the extensible ones; the `api_returned_null` ones are dropped. -/
def download_tweets_selection (known : List (String × JObj))
    (tweet_ids_to_download : List String) : List String :=
  (downloadPartition known tweet_ids_to_download).1
    ++ (downloadPartition known tweet_ids_to_download).2.2

/-- The tweet's own id as added by the retweet and alt-text blocks. -/
def isOwnId (tweet : JObj) (v : JValue) : Prop :=
  pyGet tweet "id_str" = some v
    ∨ ∃ idv, pyGet tweet "id" = some idv ∧ v = .str (pyStr idv)

theorem setAdd_mem {ids : List JValue} {x v : JValue}
    (h : v ∈ setAdd ids x) : v ∈ ids ∨ v = x := by
  unfold setAdd at h
  split at h
  · exact Or.inl h
  · rcases List.mem_append.mp h with h | h
    · exact Or.inl h
    · exact Or.inr (List.mem_singleton.mp h)

theorem collectQuoted_mem {known : List (String × JObj)} :
    ∀ (us ids : List JValue) (v : JValue), v ∈ (collectQuoted known ids us).1 →
      v ∈ ids ∨ ∃ s, v = JValue.str s ∧ storeContains known s = false := by
  intro us
  induction us with
  | nil => intro ids v hv; exact Or.inl hv
  | cons u rest ih =>
    intro ids v hv
    unfold collectQuoted at hv
    match u with
    | .null | .bool _ | .int _ | .str _ | .arr _ => exact ih ids v hv
    | .obj uo =>
      simp only at hv
      split at hv
      · split at hv
        · split at hv
          · rename_i hsc
            split at hv
            · exact ih ids v hv
            · rename_i hknown
              rcases ih _ v hv with h | h
              · rcases setAdd_mem h with h | h
                · exact Or.inl h
                · rename_i q _
                  exact Or.inr ⟨q.2, h, by simpa using hknown⟩
              · exact Or.inr h
          · exact ih ids v hv
        · exact Or.inl hv
        · exact Or.inl hv
      · exact ih ids v hv

theorem collectStep1_mem {tweet : JObj} {known : List (String × JObj)} {v : JValue}
    (hv : v ∈ (collectStep1 tweet known).1) :
    ∃ s, v = JValue.str s ∧ storeContains known s = false := by
  unfold collectStep1 at hv
  split at hv
  · split at hv
    · split at hv
      · rcases collectQuoted_mem _ _ _ hv with h | h
        · simp at h
        · exact h
      · simp at hv
      · simp at hv
    · simp at hv
  · simp at hv

theorem collectReply_mem {tweet : JObj} {known : List (String × JObj)}
    {ids : List JValue} {v : JValue} (hv : v ∈ collectReply tweet known ids) :
    v ∈ ids ∨ ∃ prev, pyGet tweet "in_reply_to_status_id_str" = some prev
      ∧ v = prev ∧ ∀ s, prev = JValue.str s → storeContains known s = false := by
  unfold collectReply at hv
  split at hv
  · split at hv
    · rename_i prev hprev
      split at hv
      · rename_i s
        split at hv
        · exact Or.inl hv
        · rename_i hknown
          rcases setAdd_mem hv with h | h
          · exact Or.inl h
          · refine Or.inr ⟨.str s, hprev, h, ?_⟩
            intro s2 hs2
            cases hs2
            simpa using hknown
      · rename_i hne
        rcases setAdd_mem hv with h | h
        · exact Or.inl h
        · refine Or.inr ⟨prev, hprev, h, ?_⟩
          intro s2 hs2
          exact absurd hs2 (by simpa using hne s2)
    · exact Or.inl hv
  · exact Or.inl hv

theorem addOwnId_mem {tweet : JObj} {ids : List JValue} {v : JValue}
    (hv : v ∈ (addOwnId tweet ids).1) : v ∈ ids ∨ isOwnId tweet v := by
  unfold addOwnId at hv
  split at hv
  · exact Or.inl hv
  · split at hv
    · split at hv
      · exact Or.inl hv
      · rename_i idv hne hidv
        rcases setAdd_mem hv with h | h
        · exact Or.inl h
        · exact Or.inr (Or.inr ⟨idv, hidv, h⟩)
      · exact Or.inl hv
    · exact Or.inl hv
  · rename_i idv hidv
    rcases setAdd_mem hv with h | h
    · exact Or.inl h
    · exact Or.inr (Or.inl (h ▸ hidv))

theorem collectRetweet_mem {tweet : JObj} {ids : List JValue} {v : JValue}
    (hv : v ∈ (collectRetweet tweet ids).1) : v ∈ ids ∨ isOwnId tweet v := by
  unfold collectRetweet at hv
  split at hv
  · split at hv
    · split at hv
      · exact addOwnId_mem hv
      · exact Or.inl hv
    · exact Or.inl hv
    · exact Or.inl hv
  · exact Or.inl hv

theorem collectAltText_mem {tweet : JObj} {ids : List JValue} {v : JValue}
    (hv : v ∈ (collectAltText tweet ids).1) : v ∈ ids ∨ isOwnId tweet v := by
  unfold collectAltText at hv
  split at hv
  · exact addOwnId_mem hv
  · exact Or.inl hv

/-- Provenance of every id the collector returns (on success or failure):
it is an unknown quoted id, an unknown reply parent, or the tweet's own id. -/
theorem collect_mem {tweet : JObj} {known : List (String × JObj)} {v : JValue}
    (hv : v ∈ (collect_tweet_references tweet known).1) :
    (∃ s, v = JValue.str s ∧ storeContains known s = false)
    ∨ (∃ prev, pyGet (unwrap_tweet tweet) "in_reply_to_status_id_str" = some prev
        ∧ v = prev ∧ ∀ s, prev = JValue.str s → storeContains known s = false)
    ∨ isOwnId (unwrap_tweet tweet) v := by
  unfold collect_tweet_references at hv
  simp only [] at hv
  split at hv
  · simp at hv
  · split at hv
    · rename_i ids1 e1 hstep1
      refine Or.inl (collectStep1_mem
        (show v ∈ (collectStep1 (unwrap_tweet tweet) known).1 from ?_))
      rw [hstep1]
      exact hv
    · rename_i ids1 hstep1
      have hids1 : ∀ w, w ∈ ids1 → ∃ s, w = JValue.str s ∧ storeContains known s = false := by
        intro w hw
        refine collectStep1_mem
          (show w ∈ (collectStep1 (unwrap_tweet tweet) known).1 from ?_)
        rw [hstep1]
        exact hw
      have main : ∀ w, w ∈ (collectRetweet (unwrap_tweet tweet)
          (collectReply (unwrap_tweet tweet) known ids1)).1 →
          (∃ s, w = JValue.str s ∧ storeContains known s = false)
          ∨ (∃ prev, pyGet (unwrap_tweet tweet) "in_reply_to_status_id_str" = some prev
              ∧ w = prev ∧ ∀ s, prev = JValue.str s → storeContains known s = false)
          ∨ isOwnId (unwrap_tweet tweet) w := by
        intro w hw
        rcases collectRetweet_mem hw with hw | hw
        · rcases collectReply_mem hw with hw | hw
          · exact Or.inl (hids1 w hw)
          · exact Or.inr (Or.inl hw)
        · exact Or.inr (Or.inr hw)
      split at hv
      · rename_i ids2 e2 hstep2
        refine main v ?_
        rw [hstep2]
        exact hv
      · rename_i ids2 hstep2
        have hids2 : ∀ w, w ∈ ids2 → _ := fun w hw =>
          main w (by rw [hstep2]; exact hw)
        split at hv
        · rename_i ids3 e3 hstep3
          rcases collectAltText_mem (show v ∈ (collectAltText (unwrap_tweet tweet) ids2).1 by
            rw [hstep3]; exact hv) with h | h
          · exact hids2 v h
          · exact Or.inr (Or.inr h)
        · rename_i ids3 hstep3
          have hids3 : v ∈ ids3 := by
            split at hv <;> exact hv
          rcases collectAltText_mem (show v ∈ (collectAltText (unwrap_tweet tweet) ids2).1 by
            rw [hstep3]; exact hids3) with h | h
          · exact hids2 v h
          · exact Or.inr (Or.inr h)

theorem storeGet_storeSet_isSome {d : List (String × JObj)} {k k2 : String} {v : JObj}
    (h : (storeGet d k).isSome = true) :
    (storeGet (storeSet d k2 v) k).isSome = true := by
  induction d with
  | nil => simp [storeGet] at h
  | cons hd tl ih =>
    obtain ⟨k3, v3⟩ := hd
    unfold storeSet
    by_cases h32 : k3 = k2
    · simp only [if_pos h32]
      unfold storeGet at h ⊢
      by_cases h3k : k3 = k
      · simp [h3k]
      · simp only [if_neg h3k] at h ⊢
        exact h
    · simp only [if_neg h32]
      unfold storeGet at h ⊢
      by_cases h3k : k3 = k
      · simp [h3k]
      · simp only [if_neg h3k] at h ⊢
        exact ih h

theorem downloadPartition_new_mem {known : List (String × JObj)} {ids : List String}
    {i : String} (h : i ∈ (downloadPartition known ids).1) :
    storeGet known i = none := by
  induction ids with
  | nil => simp [downloadPartition] at h
  | cons hd tl ih =>
    unfold downloadPartition at h
    split at h
    · rename_i hget
      rcases List.mem_cons.mp h with rfl | h
      · exact hget
      · exact ih h
    · split at h <;> exact ih h

theorem downloadPartition_ext_mem {known : List (String × JObj)} {ids : List String}
    {i : String} (h : i ∈ (downloadPartition known ids).2.2) :
    ∃ t, storeGet known i = some t ∧ isApiReturnedNull t = false := by
  induction ids with
  | nil => simp [downloadPartition] at h
  | cons hd tl ih =>
    unfold downloadPartition at h
    split at h
    · exact ih h
    · rename_i t hget
      split at h
      · exact ih h
      · rename_i hapi
        rcases List.mem_cons.mp h with rfl | h
        · exact ⟨t, hget, by simpa using hapi⟩
        · exact ih h

/-- A cached negative entry: `api_returned_null` is set, yet the tweet is
still marked as an archive retweet, so the retweet branch of the collector
re-adds its own id. -/
def c4_tweet : JObj :=
  [("from_archive", .bool true), ("id_str", .str "42"),
   ("full_text", .str "RT @x hi"), ("api_returned_null", .bool true)]

/-- C4 counterexample: the Reference Collector *does* re-add the identifier
of a store record whose `api_returned_null` flag is true.  `c4_tweet` is
stored under its own id "42" with `api_returned_null: true`, yet
`collect_tweet_references` returns `{"42"}` — the retweet branch adds the
tweet's own id with no check of `api_returned_null` (nor of the store at
all). -/
theorem C4_counterexample :
    isApiReturnedNull c4_tweet = true
    ∧ storeGet [("42", c4_tweet)] "42" = some c4_tweet
    ∧ collect_tweet_references c4_tweet [("42", c4_tweet)] = ([.str "42"], none) :=
  ⟨rfl, rfl, rfl⟩

/-- C4 (amended): a record with `api_returned_null` is retained —
`add_known_tweet` never deletes a store key — and the download pass excludes
every identifier whose cached record has `api_returned_null is True` from
the list it downloads.  The Reference Collector, however, can re-add such an
identifier: the retweet and missing-alt-text branches add the tweet's *own*
id without consulting the store, and that is the only way an
already-known identifier enters the returned set (quoted-tweet and
reply-parent references are filtered against the store). -/
theorem C4_negative_cache :
    (∀ (known : List (String × JObj)) (tid : String) (nt : Option JObj) (k : String),
        storeContains known k = true →
        storeContains (add_known_tweet known tid nt) k = true)
    ∧ (∀ (known : List (String × JObj)) (ids : List String) (i : String) (t : JObj),
        i ∈ download_tweets_selection known ids → storeGet known i = some t →
        isApiReturnedNull t = false)
    ∧ (∀ (tweet : JObj) (known : List (String × JObj)) (s : String),
        JValue.str s ∈ (collect_tweet_references tweet known).1 →
        storeContains known s = true →
        isOwnId (unwrap_tweet tweet) (JValue.str s)) := by
  refine ⟨?_, ?_, ?_⟩
  · intro known tid nt k h
    unfold storeContains at h ⊢
    unfold add_known_tweet
    cases nt with
    | some nt' =>
      cases hget : storeGet known tid with
      | some old =>
        simp only [hget]
        split
        · exact h
        · exact storeGet_storeSet_isSome h
      | none =>
        simp only [hget]
        exact storeGet_storeSet_isSome h
    | none =>
      cases hget : storeGet known tid with
      | some old =>
        simp only [hget]
        exact storeGet_storeSet_isSome h
      | none =>
        simp only [hget]
        exact storeGet_storeSet_isSome h
  · intro known ids i t hmem hget
    unfold download_tweets_selection at hmem
    rcases List.mem_append.mp hmem with h | h
    · rw [downloadPartition_new_mem h] at hget
      cases hget
    · obtain ⟨t2, hget2, hapi⟩ := downloadPartition_ext_mem h
      rw [hget] at hget2
      cases hget2
      exact hapi
  · intro tweet known s hmem hknown
    rcases collect_mem hmem with h | h | h
    · obtain ⟨s2, hs2, hfalse⟩ := h
      cases hs2
      rw [hknown] at hfalse
      cases hfalse
    · obtain ⟨prev, hprev, heq, hall⟩ := h
      have := hall s heq.symm
      rw [hknown] at this
      cases this
    · exact h

theorem C4_negative_cache_witness :
    storeContains (add_known_tweet [("7", [("id_str", JValue.str "7")])] "9" none) "7" = true
    ∧ isApiReturnedNull [("id_str", JValue.str "1")] = false
    ∧ isOwnId (unwrap_tweet c4_tweet) (JValue.str "42") := by
  refine ⟨?_, ?_, ?_⟩
  · exact C4_negative_cache.1 [("7", [("id_str", JValue.str "7")])] "9" none "7" rfl
  · exact C4_negative_cache.2.1 [("1", [("id_str", JValue.str "1")])] ["1"] "1"
      [("id_str", JValue.str "1")] (by decide) rfl
  · refine C4_negative_cache.2.2 c4_tweet [("42", c4_tweet)] "42" ?_ rfl
    show JValue.str "42" ∈ (collect_tweet_references c4_tweet [("42", c4_tweet)]).1
    exact List.mem_singleton.mpr rfl

/-! ## Video variant selection of `collect_media_ids_from_tweet`
(parser.py lines 1089-1121) -/

/-- Python `int(v)`: an int as-is, a bool as 0/1, a decimal string (with an
optional sign) as its value; anything else raises. -/
def pyIntE (v : JValue) : Except PyErr Int :=
  match v with
  | .int n => .ok n
  | .bool b => .ok (if b then 1 else 0)
  | .str s =>
    match s.data with
    | '-' :: rest =>
      if !rest.isEmpty && rest.all Char.isDigit then
        .ok (-(strToNat ⟨rest⟩ : Int))
      else .error .valueError
    | cs =>
      if !cs.isEmpty && cs.all Char.isDigit then .ok (strToNat ⟨cs⟩)
      else .error .valueError
  | _ => .error .typeError

/-- The bitrate a variant declares, when it declares a usable one. -/
def declaredBitrate (vo : JObj) : Option Int :=
  if pyContains vo "bitrate" then
    match pyGet vo "bitrate" with
    | some bv => (pyIntE bv).toOption
    | none => none
  else none

/-- The `for variant in media['video_info']['variants']` loop (lines
1093-1097): running `best_quality_url` / `best_bitrate` state, updated when a
declared bitrate strictly exceeds the best so far.  (Archive variants are
dicts; a non-dict element is conservatively mapped to an error.) -/
def selectBestVariant : List JValue → JValue → Int → Except PyErr (JValue × Int)
  | [], url, best => .ok (url, best)
  | v :: rest, url, best =>
    match v with
    | .obj vo =>
      if pyContains vo "bitrate" then
        match pyGet vo "bitrate" with
        | some bv =>
          match pyIntE bv with
          | .error e => .error e
          | .ok bitrate =>
            if best < bitrate then
              match pyGet vo "url" with
              | some u => selectBestVariant rest u bitrate
              | none => .error (.keyError "url")
            else selectBestVariant rest url best
        | none => .error (.keyError "bitrate")
      else selectBestVariant rest url best
    | _ => .error .typeError

/-- The video/animated_gif URL-recording outcome (lines 1089-1121):
`.ok (some url)` means a best-quality URL is recorded (a `tweet_media` entry
is written and, when a worklist is given, a `media_sources` entry);
`.ok none` means nothing is recorded for this media entity (either no
`video_info`/`variants`, or the `best_bitrate == -1` warning path). -/
def videoMediaOutcome (media : JObj) : Except PyErr (Option JValue) :=
  match pyGet media "video_info" with
  | some (.obj vi) =>
    if pyContains vi "variants" then
      match pyGet vi "variants" with
      | some (.arr vars) =>
        match selectBestVariant vars (.str "") (-1) with
        | .error e => .error e
        | .ok (url, best) => .ok (if best = -1 then none else some url)
      | some _ => .error .typeError
      | none => .error (.keyError "variants")
    else .ok none
  | some _ => .error .typeError
  | none => .ok none

/-- Full specification of the selection loop from an arbitrary starting
state: the final bitrate is the max of the start and all declared bitrates,
and the final URL is either the start URL (no variant improved) or the URL of
the first variant attaining the final bitrate. -/
theorem selectBest_spec :
    ∀ (vars : List JObj) (url0 : JValue) (best0 : Int) (url : JValue) (best : Int),
      selectBestVariant (vars.map JValue.obj) url0 best0 = .ok (url, best) →
      best = (vars.filterMap declaredBitrate).foldl max best0
      ∧ ((url = url0 ∧ best = best0
            ∧ ∀ w ∈ vars, ∀ b, declaredBitrate w = some b → b ≤ best0)
         ∨ (best0 < best ∧ ∃ pre vo post, vars = pre ++ vo :: post
              ∧ declaredBitrate vo = some best ∧ pyGet vo "url" = some url
              ∧ ∀ w ∈ pre, ∀ b, declaredBitrate w = some b → b < best)) := by
  intro vars
  induction vars with
  | nil =>
    intro url0 best0 url best h
    simp only [List.map_nil, selectBestVariant] at h
    cases h
    exact ⟨rfl, Or.inl ⟨rfl, rfl, by simp⟩⟩
  | cons vo rest ih =>
    intro url0 best0 url best h
    simp only [List.map_cons, selectBestVariant] at h
    by_cases hc : pyContains vo "bitrate"
    · rw [if_pos hc] at h
      cases hbv : pyGet vo "bitrate" with
      | none => simp [pyContains, hbv] at hc
      | some bv =>
        simp only [hbv] at h
        cases hpi : pyIntE bv with
        | error e => simp [hpi] at h
        | ok bitrate =>
          simp only [hpi] at h
          have hdecl : declaredBitrate vo = some bitrate := by
            simp [declaredBitrate, hc, hbv, hpi, Except.toOption]
          have hfm : (vo :: rest).filterMap declaredBitrate
              = bitrate :: rest.filterMap declaredBitrate := by
            simp [List.filterMap_cons, hdecl]
          by_cases himp : best0 < bitrate
          · rw [if_pos himp] at h
            cases hurl : pyGet vo "url" with
            | none => simp [hurl] at h
            | some u =>
              simp only [hurl] at h
              obtain ⟨hmax, hdisj⟩ := ih u bitrate url best h
              have hmax2 : best = ((vo :: rest).filterMap declaredBitrate).foldl max best0 := by
                rw [hfm]
                simpa [max_eq_right (le_of_lt himp)] using hmax
              refine ⟨hmax2, Or.inr ?_⟩
              rcases hdisj with ⟨hu, hb, hall⟩ | ⟨hlt, pre, vo2, post, hsplit, hd2, hu2, hpre⟩
              · subst hu; subst hb
                exact ⟨himp, [], vo, rest, rfl, hdecl, hurl, by simp⟩
              · refine ⟨lt_trans himp hlt, vo :: pre, vo2, post, by simp [hsplit], hd2, hu2, ?_⟩
                intro w hw b hb
                rcases List.mem_cons.mp hw with rfl | hw
                · rw [hdecl] at hb
                  cases hb
                  exact hlt
                · exact hpre w hw b hb
          · rw [if_neg himp] at h
            have hle : bitrate ≤ best0 := le_of_not_lt himp
            obtain ⟨hmax, hdisj⟩ := ih url0 best0 url best h
            have hmax2 : best = ((vo :: rest).filterMap declaredBitrate).foldl max best0 := by
              rw [hfm]
              simpa [max_eq_left hle] using hmax
            refine ⟨hmax2, ?_⟩
            rcases hdisj with ⟨hu, hb, hall⟩ | ⟨hlt, pre, vo2, post, hsplit, hd2, hu2, hpre⟩
            · refine Or.inl ⟨hu, hb, ?_⟩
              intro w hw b hb
              rcases List.mem_cons.mp hw with rfl | hw
              · rw [hdecl] at hb
                cases hb
                exact hle
              · exact hall w hw b hb
            · refine Or.inr ⟨hlt, vo :: pre, vo2, post, by simp [hsplit], hd2, hu2, ?_⟩
              intro w hw b hb
              rcases List.mem_cons.mp hw with rfl | hw
              · rw [hdecl] at hb
                cases hb
                exact lt_of_le_of_lt hle hlt
              · exact hpre w hw b hb
    · rw [if_neg hc] at h
      have hdecl : declaredBitrate vo = none := by
        simp [declaredBitrate, hc]
      have hfm : (vo :: rest).filterMap declaredBitrate
          = rest.filterMap declaredBitrate := by
        simp [List.filterMap_cons, hdecl]
      obtain ⟨hmax, hdisj⟩ := ih url0 best0 url best h
      refine ⟨by rw [hfm]; exact hmax, ?_⟩
      rcases hdisj with ⟨hu, hb, hall⟩ | ⟨hlt, pre, vo2, post, hsplit, hd2, hu2, hpre⟩
      · refine Or.inl ⟨hu, hb, ?_⟩
        intro w hw b hb
        rcases List.mem_cons.mp hw with rfl | hw
        · rw [hdecl] at hb; cases hb
        · exact hall w hw b hb
      · refine Or.inr ⟨hlt, vo :: pre, vo2, post, by simp [hsplit], hd2, hu2, ?_⟩
        intro w hw b hb
        rcases List.mem_cons.mp hw with rfl | hw
        · rw [hdecl] at hb; cases hb
        · exact hpre w hw b hb

theorem selectBest_no_bitrate {vars : List JObj} {url0 : JValue} {best0 : Int}
    (h : ∀ vo ∈ vars, pyContains vo "bitrate" = false) :
    selectBestVariant (vars.map JValue.obj) url0 best0 = .ok (url0, best0) := by
  induction vars with
  | nil => rfl
  | cons vo rest ih =>
    simp only [List.map_cons, selectBestVariant]
    rw [if_neg (by simp [h vo (List.mem_cons_self vo rest)])]
    exact ih fun w hw => h w (List.mem_cons_of_mem vo hw)

/-- A video media entity whose only variant *declares* a bitrate, but a
negative one. -/
def c9_media : JObj :=
  [("video_info", .obj [("variants", .arr
    [.obj [("bitrate", .str "-3"), ("url", .str "https://v.example/a")]])])]

/-- C9 counterexample: a variant can declare a bitrate and still have no URL
recorded.  The only variant of `c9_media` declares bitrate `-3`; the claim
says the URL of the variant with the highest declared bitrate (here `-3`) is
recorded, but `-3 > -1` fails against the `best_bitrate = -1` sentinel, so
the loop ends at `-1` and the code takes the warn-and-record-nothing path. -/
theorem C9_counterexample :
    declaredBitrate [("bitrate", .str "-3"), ("url", .str "https://v.example/a")]
      = some (-3)
    ∧ videoMediaOutcome c9_media = .ok none :=
  ⟨rfl, rfl⟩

/-- C9 (amended): when the selection loop succeeds, the final bitrate is the
maximum of the sentinel `-1` and all declared bitrates, and whenever that
maximum exceeds `-1` the recorded URL is the URL of the first variant
attaining it (so ties go to the first-seen variant, and a declared bitrate of
`0` is valid); a URL is recorded exactly when the final bitrate differs from
`-1` — so not only when no variant declares a bitrate, but also when every
declared bitrate is negative, nothing is recorded and no worklist entry is
added; in particular variant lists that declare no bitrate at all always
take the record-nothing path. -/
theorem C9_video_variant_selection :
    (∀ (vars : List JObj) (url : JValue) (best : Int),
        selectBestVariant (vars.map JValue.obj) (.str "") (-1) = .ok (url, best) →
        best = (vars.filterMap declaredBitrate).foldl max (-1)
        ∧ (best ≠ -1 → ∃ pre vo post, vars = pre ++ vo :: post
            ∧ declaredBitrate vo = some best ∧ pyGet vo "url" = some url
            ∧ ∀ w ∈ pre, ∀ b, declaredBitrate w = some b → b < best))
    ∧ (∀ (media vi : JObj) (vars : List JValue) (url : JValue) (best : Int),
        pyGet media "video_info" = some (.obj vi) →
        pyGet vi "variants" = some (.arr vars) →
        selectBestVariant vars (.str "") (-1) = .ok (url, best) →
        videoMediaOutcome media = .ok (if best = -1 then none else some url))
    ∧ (∀ (media vi : JObj) (vars : List JObj),
        pyGet media "video_info" = some (.obj vi) →
        pyGet vi "variants" = some (.arr (vars.map JValue.obj)) →
        (∀ vo ∈ vars, pyContains vo "bitrate" = false) →
        videoMediaOutcome media = .ok none)
    ∧ videoMediaOutcome
        [("video_info", .obj [("variants", .arr
          [.obj [("bitrate", .int 0), ("url", .str "https://v.example/first")],
           .obj [("bitrate", .str "0"), ("url", .str "https://v.example/second")]])])]
        = .ok (some (.str "https://v.example/first")) := by
  refine ⟨?_, ?_, ?_, rfl⟩
  · intro vars url best h
    obtain ⟨hmax, hdisj⟩ := selectBest_spec vars (.str "") (-1) url best h
    refine ⟨hmax, ?_⟩
    intro hne
    rcases hdisj with ⟨hu, hb, hall⟩ | ⟨hlt, pre, vo, post, hsplit, hd, hu, hpre⟩
    · exact absurd hb hne
    · exact ⟨pre, vo, post, hsplit, hd, hu, hpre⟩
  · intro media vi vars url best hvi hvars hsel
    unfold videoMediaOutcome
    simp only [hvi]
    rw [if_pos (show pyContains vi "variants" = true by simp [pyContains, hvars])]
    simp only [hvars, hsel]
  · intro media vi vars hvi hvars hnone
    unfold videoMediaOutcome
    simp only [hvi]
    rw [if_pos (show pyContains vi "variants" = true by simp [pyContains, hvars])]
    simp [hvars, selectBest_no_bitrate hnone]

theorem C9_video_variant_selection_witness :
    ((2 : Int) = ([[("bitrate", JValue.int 2), ("url", JValue.str "u")]].filterMap
        declaredBitrate).foldl max (-1)
      ∧ ((2 : Int) ≠ -1 → ∃ pre vo post,
          [[("bitrate", JValue.int 2), ("url", JValue.str "u")]] = pre ++ vo :: post
          ∧ declaredBitrate vo = some 2 ∧ pyGet vo "url" = some (.str "u")
          ∧ ∀ w ∈ pre, ∀ b, declaredBitrate w = some b → b < 2))
    ∧ videoMediaOutcome [("video_info", .obj [("variants", .arr
        [.obj [("url", JValue.str "u")]])])] = .ok none := by
  constructor
  · exact C9_video_variant_selection.1
      [[("bitrate", JValue.int 2), ("url", JValue.str "u")]] (JValue.str "u") 2 rfl
  · exact C9_video_variant_selection.2.2.1
      [("video_info", .obj [("variants", .arr [.obj [("url", JValue.str "u")]])])]
      [("variants", .arr [.obj [("url", JValue.str "u")]])]
      [[("url", JValue.str "u")]] rfl rfl (by decide)

/-! ## `convert_tweet` (parser.py lines 639-737), `convert_tweet_to_md`
(977-1026), `convert_tweet_to_html` (930-975) and `convert_tweet_to_html_head`
(843-888) -/

/-- `s.split()` — split on runs of whitespace, no empty parts. -/
def splitWsGo : List Char → List Char → List String
  | acc, [] => if acc.isEmpty then [] else [⟨acc.reverse⟩]
  | acc, c :: rest =>
    if c = ' ' || c = '\n' || c = '\t' || c = '\r' then
      if acc.isEmpty then splitWsGo [] rest
      else ⟨acc.reverse⟩ :: splitWsGo [] rest
    else splitWsGo (c :: acc) rest

def splitWs (s : String) : List String :=
  splitWsGo [] s.data

example : splitWs "  a bc \n d " = ["a", "bc", "d"] := rfl

/-- `s.splitlines()` restricted to the newline separator: no entry for the
part after a trailing newline. -/
def splitLinesGo : List Char → List Char → List String
  | acc, [] => if acc.isEmpty then [] else [⟨acc.reverse⟩]
  | acc, c :: rest =>
    if c = '\n' then ⟨acc.reverse⟩ :: splitLinesGo [] rest
    else splitLinesGo (c :: acc) rest

def splitLinesNL (s : String) : List String :=
  splitLinesGo [] s.data

example : splitLinesNL "a\nb\n" = ["a", "b"] := rfl

example : splitLinesNL "" = [] := rfl

/-- `s.replace(pat, rep)` for a non-empty pattern: left-to-right,
non-overlapping. -/
def pyReplaceGo (pat rep : List Char) : Nat → List Char → List Char
  | _, [] => []
  | 0, s => s
  | fuel + 1, c :: cs =>
    if startsWithChars pat (c :: cs) then
      rep ++ pyReplaceGo pat rep fuel ((c :: cs).drop pat.length)
    else c :: pyReplaceGo pat rep fuel cs

/-- Python `s.replace(pat, rep)`; an empty pattern inserts `rep` before every
character and at the end. -/
def pyReplace (s pat rep : String) : String :=
  match pat.data with
  | [] => ⟨s.data.foldr (fun c acc => rep.data ++ c :: acc) rep.data⟩
  | _ => ⟨pyReplaceGo pat.data rep.data s.data.length s.data⟩

example : pyReplace "aaa" "aa" "b" = "ba" := rfl

example : pyReplace "ab" "" "-" = "-a-b-" := rfl

example : pyReplace "a\nb" "\n" "<br/>\n" = "a<br/>\nb" := rfl

/-- `sub in s` on strings. -/
def containsSubGo (sub : List Char) : List Char → Bool
  | [] => sub.isEmpty
  | c :: cs => startsWithChars sub (c :: cs) || containsSubGo sub cs

def containsSub (s sub : String) : Bool :=
  containsSubGo sub.data s.data

example : containsSub "abcd" "bc" = true := rfl

example : containsSub "abcd" "ca" = false := rfl

/-- `os.path.join` for two components (an absolute second component is not
special-cased; the inputs here are plain relative names). -/
def joinPath (a b : String) : String :=
  if a = "" then b
  else if a.data.getLast? = some '/' then a ++ b
  else a ++ "/" ++ b

/-- The extension (with its dot) of the last path component, as in
`os.path.splitext(p)[1]`; leading dots of the component do not begin an
extension. -/
def strSplitextExt (p : String) : String :=
  let bn := (p.data.reverse.takeWhile (fun c => c ≠ '/')).reverse
  let revTail := bn.reverse.takeWhile (fun c => c ≠ '.')
  if revTail.length = bn.length then ""
  else
    let idx := bn.length - revTail.length - 1
    if (bn.take idx).any (fun c => c ≠ '.') then ⟨bn.drop idx⟩ else ""

example : strSplitextExt "a/b.c/file.tar.gz" = ".gz" := rfl

example : strSplitextExt "a/.bashrc" = "" := rfl

/-- Zero-padded two-digit rendering of a (nonnegative) number. -/
def pad2 (n : Int) : String :=
  if n < 10 then "0" ++ toString n else toString n

def monthAbbrev (m : Int) : String :=
  if m = 1 then "Jan" else if m = 2 then "Feb" else if m = 3 then "Mar"
  else if m = 4 then "Apr" else if m = 5 then "May" else if m = 6 then "Jun"
  else if m = 7 then "Jul" else if m = 8 then "Aug" else if m = 9 then "Sep"
  else if m = 10 then "Oct" else if m = 11 then "Nov" else if m = 12 then "Dec"
  else ""

def monthOfAbbrev (s : String) : Option Int :=
  if s = "Jan" then some 1 else if s = "Feb" then some 2
  else if s = "Mar" then some 3 else if s = "Apr" then some 4
  else if s = "May" then some 5 else if s = "Jun" then some 6
  else if s = "Jul" then some 7 else if s = "Aug" then some 8
  else if s = "Sep" then some 9 else if s = "Oct" then some 10
  else if s = "Nov" then some 11 else if s = "Dec" then some 12
  else none

def isLeap (y : Int) : Bool :=
  (y % 4 == 0 && y % 100 != 0) || y % 400 == 0

def daysInMonth (y m : Int) : Int :=
  if m = 1 ∨ m = 3 ∨ m = 5 ∨ m = 7 ∨ m = 8 ∨ m = 10 ∨ m = 12 then 31
  else if m = 4 ∨ m = 6 ∨ m = 9 ∨ m = 11 then 30
  else if m = 2 then (if isLeap y then 29 else 28)
  else 0

/-- Days since 1970-01-01 of a proleptic-Gregorian civil date. -/
def daysFromCivil (y m d : Int) : Int :=
  let y2 := if m ≤ 2 then y - 1 else y
  let era := y2.fdiv 400
  let yoe := y2 - era * 400
  let mp := (m + 9).emod 12
  let doy := (153 * mp + 2).fdiv 5 + d - 1
  let doe := yoe * 365 + yoe.fdiv 4 - yoe.fdiv 100 + doy
  era * 146097 + doe - 719468

/-- Civil date (year, month, day) of a days-since-epoch count. -/
def civilFromDays (z0 : Int) : Int × Int × Int :=
  let z := z0 + 719468
  let era := z.fdiv 146097
  let doe := z - era * 146097
  let yoe := (doe - doe.fdiv 1460 + doe.fdiv 36524 - doe.fdiv 146096).fdiv 365
  let y := yoe + era * 400
  let doy := doe - (365 * yoe + yoe.fdiv 4 - yoe.fdiv 100)
  let mp := (5 * doy + 2).fdiv 153
  let d := doy - (153 * mp + 2).fdiv 5 + 1
  let m := if mp < 10 then mp + 3 else mp - 9
  (if m ≤ 2 then y + 1 else y, m, d)

example : daysFromCivil 1970 1 1 = 0 := rfl

example : daysFromCivil 2019 3 19 = 17974 := rfl

example : civilFromDays 17974 = (2019, 3, 19) := rfl

example : civilFromDays (-1) = (1969, 12, 31) := rfl

/-- 1-2 digit decimal token value. -/
def shortNum? (cs : List Char) : Option Nat :=
  if !cs.isEmpty && cs.length ≤ 2 && cs.all Char.isDigit then some (strToNat ⟨cs⟩)
  else none

/-- `datetime.datetime.strptime(s, '%a %b %d %X %z %Y').timestamp()` followed
by `int(round(...))`: epoch seconds of a date such as
`Tue Mar 19 14:05:17 +0000 2019`.  `%X` is `%H:%M:%S`; `%z` is a sign and
four digits.  Mismatches raise `ValueError`. -/
def parse_original_date (s : String) : Except PyErr Int :=
  match splitWs s with
  | [wd, mon, day, tim, tz, yr] =>
    if !(["Mon", "Tue", "Wed", "Thu", "Fri", "Sat", "Sun"].contains wd) then
      .error .valueError
    else
      match monthOfAbbrev mon with
      | none => .error .valueError
      | some m =>
        match shortNum? day.data with
        | none => .error .valueError
        | some d =>
          match tim.data.splitOn ':' with
          | [hs, ms, ss] =>
            match shortNum? hs, shortNum? ms, shortNum? ss with
            | some hh, some mm, some sec =>
              if hh ≤ 23 && mm ≤ 59 && sec ≤ 59 then
                match tz.data with
                | [sg, z1, z2, z3, z4] =>
                  if (sg = '+' || sg = '-')
                      && [z1, z2, z3, z4].all Char.isDigit then
                    if strToNat ⟨[z1, z2]⟩ ≤ 23 && strToNat ⟨[z3, z4]⟩ ≤ 59 then
                      if yr.data.length = 4 && yr.data.all Char.isDigit then
                        if 1 ≤ d ∧ (d : Int) ≤ daysInMonth (strToNat yr) m then
                          .ok (daysFromCivil (strToNat yr) m d * 86400
                            + hh * 3600 + mm * 60 + sec
                            - (if sg = '-' then -1 else 1)
                              * ((strToNat ⟨[z1, z2]⟩ : Int) * 3600
                                + strToNat ⟨[z3, z4]⟩ * 60))
                        else .error .valueError
                      else .error .valueError
                    else .error .valueError
                  else .error .valueError
                | _ => .error .valueError
              else .error .valueError
            | _, _, _ => .error .valueError
          | _ => .error .valueError
  | _ => .error .valueError

example : parse_original_date "Tue Mar 19 14:05:17 +0000 2019" = .ok 1553004317 := rfl

example : parse_original_date "Tue Mar 19 14:05:17 +0100 2019" = .ok 1553000717 := rfl

example : parse_original_date "Tue Mar 99 14:05:17 +0000 2019" = .error .valueError := rfl

/-- `tweet_datetime_local.strftime('%b %d %Y, %H:%M')` for an epoch second
count, in a local timezone with the given fixed UTC offset in seconds. -/
def formatNicerDate (ts off : Int) : String :=
  let t := ts + off
  let days := t.fdiv 86400
  let secs := t - days * 86400
  let c := civilFromDays days
  let hh := secs.fdiv 3600
  let mm := (secs - hh * 3600).fdiv 60
  monthAbbrev c.2.1 ++ " " ++ pad2 c.2.2 ++ " " ++ toString c.1
    ++ ", " ++ pad2 hh ++ ":" ++ pad2 mm

example : formatNicerDate 1553004317 0 = "Mar 19 2019, 14:05" := rfl

/-- The longest match of `^(@[0-9A-Za-z_]* )*` (the run of reply handles at
the start of a reply body). -/
def replyRunGo : Nat → List Char → List Char
  | 0, _ => []
  | fuel + 1, s =>
    match s with
    | '@' :: rest =>
      let w := rest.takeWhile isWordChar
      match rest.dropWhile isWordChar with
      | ' ' :: tail => '@' :: (w ++ ' ' :: replyRunGo fuel tail)
      | _ => []
    | _ => []

def replyRun (s : String) : String :=
  ⟨replyRunGo s.data.length s.data⟩

example : replyRun "@a @b_2 hi there" = "@a @b_2 " := rfl

example : replyRun "hi @a" = "" := rfl

/-- `UserData` (parser.py): a user id / handle pair; both may be arbitrary
JSON values in the source. -/
structure UserData where
  user_id : JValue
  handle : JValue

/-- The `PathConfig` fields that `convert_tweet` uses. -/
structure PathConfig where
  file_tweet_icon : String
  dir_output_media : String
  example_file_output_tweets : String

/-- The remaining shared rendering context: the `users` / `extended_user_data`
dicts, the local timezone (a fixed UTC offset, in seconds), the paths and the
`rel_url` path-relativising helper (pure path arithmetic, irrelevant to the
claims and so taken as given). -/
structure RenderEnv where
  users : List (String × UserData)
  extended_user_data : List (String × JObj)
  localOffset : Int
  paths : PathConfig
  relUrl : String → String → String

/-- An `egg['urls']` entry (`short_url` / `expanded_url` / `display_url`). -/
structure UrlEntry where
  short_url : String
  expanded_url : String
  display_url : String

/-- Dict lookup with a JSON value as subscript: the string-keyed dicts of the
program can only contain string keys, so any other value is absent. -/
def jLookupStr {α : Type} (d : List (String × α)) (k : JValue) : Option α :=
  match k with
  | .str s =>
    match d with
    | [] => none
    | (k2, v) :: tl => if k2 = s then some v else jLookupStr tl (.str s)
  | _ => none

/-- The egg: the pre-processed intermediate form of a tweet.  The source
builds it as a dict with a fixed schema; conditionally-present keys are
`Option` fields (`is_retweeted` is only ever set to `True`, so a flag).
`media_sources` is modeled as `None` throughout, so `egg['media']` stays the
initial empty dict and the media loops of the renderers are no-ops. -/
structure Egg where
  id : JValue
  timestamp_str : String
  timestamp : Int
  urls : List UrlEntry
  original_tweet_url : String
  icon_url : String
  is_retweeted : Bool := false
  retweeted_timestamp_str : Option String := none
  retweeted_timestamp : Option Int := none
  user_id : JValue
  outer_user_id : Option JValue := none
  name_list : Option String := none
  replying_to_url : Option String := none
  full_text : String
  inner_tweet : Option JObj := none
  user_screen_name : JValue := .null
  user_description : JValue := .null
  user_name : JValue := .null
  user_id_str : JValue := .null
  profile_image_url_https : Option String := none
  user_profile_url : String := ""

/-- `str(error)` for the exceptions the converter can see.  The messages for
`QuoteRecursionDepthError` and `EmptyTweetFullTextError` are the source's
exact strings (these are the ones the recursion claims exercise); the others
are stand-ins for interpreter-generated texts. -/
def pyErrMsg : PyErr → String
  | .quoteRecursionDepth => "reached depth limit for nested quotes."
  | .emptyTweetFullText =>
      "empty full_text - tweet or user has probably been withheld, or protected their account."
  | .conflict p => "A new tweet is not equal to its stored version: " ++ String.intercalate "->" p
  | .typeError => "unsupported operand or subscript type"
  | .keyError k => "'" ++ k ++ "'"
  | .valueError => "invalid value"
  | .attributeError => "object has no such attribute"
  | .noneReference => "Tweet has reference to other tweet with id None"
  | .outOfFuel => "recursion fuel exhausted"

/-- Scheme validity as `urlparse` sees it: a letter followed by letters,
digits, `+`, `-` or `.`. -/
def urlSchemeOk : List Char → Bool
  | [] => false
  | c :: rest =>
    c.isAlpha && rest.all (fun d => d.isAlpha || d.isDigit || d = '+' || d = '-' || d = '.')

/-- Split at the first occurrence of a separator sequence. -/
def splitFirstSub (sep : List Char) : List Char → Option (List Char × List Char)
  | [] => if sep.isEmpty then some ([], []) else none
  | c :: cs =>
    if startsWithChars sep (c :: cs) then some ([], (c :: cs).drop sep.length)
    else
      match splitFirstSub sep cs with
      | some p => some (c :: p.1, p.2)
      | none => none

/-- The bare-URL fallback of `convert_tweet` (lines 730-750) applied to one
whitespace-separated word: for an old tweet without `entities.urls`, words
that parse as absolute URLs (and do not end in `…`) get a synthesised urls
entry with a twitter-style shortened display URL.  (`urlparse` is modeled for
the common `scheme://netloc/path?query` shape; a parse failure is skipped
just as the source skips its `ValueError`.) -/
def bareUrlEntry (word : String) : Option UrlEntry :=
  match splitFirstSub "://".data word.data with
  | none => none
  | some (scheme, rest) =>
    if urlSchemeOk scheme then
      let netloc := rest.takeWhile (fun c => c ≠ '/' && c ≠ '?' && c ≠ '#')
      let rest2 := rest.drop netloc.length
      let path := rest2.takeWhile (fun c => c ≠ '?' && c ≠ '#')
      let rest3 := rest2.drop path.length
      let query :=
        match rest3 with
        | '?' :: qs => qs.takeWhile (fun c => c ≠ '#')
        | _ => []
      if !netloc.isEmpty && !(str_endswith word "…") then
        let netloc_short :=
          if startsWithChars "www.".data netloc then netloc.drop 4 else netloc
        let pq := path ++ '?' :: query
        let path_short := if pq.length < 15 then path else pq.take 15 ++ ['…']
        some { short_url := word, expanded_url := word,
               display_url := ⟨netloc_short ++ path_short⟩ }
      else none
    else none

def bareUrlEntries (full_text : String) : List UrlEntry :=
  (splitWs full_text).filterMap bareUrlEntry

example : bareUrlEntries "see https://www.example.org/a?b=c okay" =
    [{ short_url := "https://www.example.org/a?b=c",
       expanded_url := "https://www.example.org/a?b=c",
       display_url := "example.org/a" }] := rfl

example : bareUrlEntries "see https://www.example.org/longer/path/here okay" =
    [{ short_url := "https://www.example.org/longer/path/here",
       expanded_url := "https://www.example.org/longer/path/here",
       display_url := "example.org/longer/path/he…" }] := rfl

/-- The profile-image read of `add_user_metadata_to_egg` (lines 812-815):
the `_normal` suffix is replaced; a non-string, non-`None` value has no
`.replace`. -/
def profileImageOf (user : JObj) : Except PyErr (Option String) :=
  if pyContains user "profile_image_url_https" then
    match pyGet user "profile_image_url_https" with
    | some (.str p) => .ok (some (pyReplace p "_normal" "_x96"))
    | some .null => .ok none
    | some _ => .error .attributeError
    | none => .ok none
  else .ok none

/-- `add_user_metadata_to_egg` (parser.py lines 802-841) with the
`profile_image_size_suffix = "_x96"` that `convert_tweet` passes. -/
def add_user_metadata_to_egg (env : RenderEnv) (egg : Egg) : Except PyErr Egg :=
  match jLookupStr env.extended_user_data egg.user_id with
  | some user =>
    match pyGet user "screen_name" with
    | none => .error (.keyError "screen_name")
    | some usn =>
      match pyGet user "description" with
      | none => .error (.keyError "description")
      | some udesc =>
        match pyGet user "name" with
        | none => .error (.keyError "name")
        | some uname =>
          match pyGet user "id_str" with
          | none => .error (.keyError "id_str")
          | some uid =>
            match profileImageOf user with
            | .error e => .error e
            | .ok pi2 =>
              .ok { egg with
                user_screen_name := usn, user_description := udesc,
                user_name := uname, user_id_str := uid,
                profile_image_url_https := pi2,
                user_profile_url := "https://twitter.com/" ++ pyStr usn }
  | none =>
    match jLookupStr env.users egg.user_id with
    | some ud =>
      .ok { egg with
        user_screen_name := ud.handle,
        user_description := .str "(user profile not available)",
        user_name := .str "(unknown / @\x7buser.handle\x7d)",
        user_id_str := .str (pyStr egg.user_id),
        profile_image_url_https := none,
        user_profile_url := "https://twitter.com/" ++ pyStr ud.handle }
    | none =>
      .ok { egg with
        user_screen_name := .str "unknown_user",
        user_description := .str "(user profile not available)",
        user_name := .str "(unknown)",
        user_id_str := .str (pyStr egg.user_id),
        profile_image_url_https := none,
        user_profile_url := "https://twitter.com/i/user/" ++ pyStr egg.user_id }

/-- `convert_tweet_to_md` (lines 977-1026); the media loop is a no-op since
`egg['media']` is empty here. -/
def convert_tweet_to_md (egg : Egg) : String :=
  let body0 := egg.full_text
  let body1 :=
    if egg.is_retweeted then "RT @" ++ pyStr egg.user_screen_name ++ ": " ++ body0
    else body0
  let body2 := egg.urls.foldl (fun b u => pyReplace b u.short_url u.expanded_url) body1
  let header :=
    match egg.name_list with
    | some nl =>
      "Replying to [" ++ escape_markdown nl ++ "]("
        ++ egg.replying_to_url.getD "" ++ ")\n\n"
    | none => ""
  let body3 := escape_markdown body2
  let body4 := "> " ++ String.intercalate "\n> " (splitLinesNL body3)
  header ++ body4 ++ "\n" ++ "\n\n<img src=\"" ++ egg.icon_url
    ++ "\" width=\"12\" /> [" ++ egg.timestamp_str ++ "]("
    ++ egg.original_tweet_url ++ ")"

/-- `convert_tweet_to_html_head` (lines 843-888). -/
def convert_tweet_to_html_head (env : RenderEnv) (egg : Egg) : String :=
  let tweet_url := "https://twitter.com/" ++ pyStr egg.user_screen_name
    ++ "/status/" ++ pyStr egg.id
  let ts_pair :=
    match egg.retweeted_timestamp_str with
    | some rts =>
      ("<span class=\"tweet-timestamp\">originally posted at <a title=\"Tweet (twitter.com)\" href=\""
         ++ tweet_url ++ "\">" ++ egg.timestamp_str ++ "</a></span>",
       "<span class=\"retweet-timestamp\">retweeted at " ++ rts ++ "</spn>")
    | none =>
      ("<a class=\"tweet-timestamp\" title=\"Tweet (twitter.com)\" href=\""
         ++ tweet_url ++ "\">" ++ egg.timestamp_str ++ "</a>", "")
  let profile_image_html :=
    match egg.profile_image_url_https with
    | none => ""
    | some piu =>
      let ext := strSplitextExt piu
      let profile_image_file_name := pyStr egg.user_id_str ++ ext
      let profile_image_file_path :=
        joinPath (joinPath env.paths.dir_output_media "profile-images")
          profile_image_file_name
      let rel := env.relUrl profile_image_file_path env.paths.example_file_output_tweets
      "<a class=\"profile-picture\" href=\"" ++ rel
        ++ "\" title=\"Enlarge profile picture (local)\"><img width=\"48\" src=\""
        ++ rel ++ "\" /></a>"
  let user_name_html := "<span class=\"user-name\" title=\""
    ++ pyStr egg.user_description ++ "\">" ++ pyStr egg.user_name ++ "</span>"
  let user_handle_html :=
    "<a class=\"user-handle\" title=\"User profile and tweets (twitter.com)\" href=\""
      ++ egg.user_profile_url ++ "\">@" ++ pyStr egg.user_screen_name ++ "</a>"
  "<div class=\"tweet-header\">" ++ profile_image_html
    ++ "<div class=\"upper-line\">" ++ user_handle_html ++ ts_pair.1
    ++ "</div><div class=\"lower-line\">" ++ user_name_html ++ ts_pair.2
    ++ "</div></div>"

/-- The retweet unwrap (lines 661-667): a tweet with a `retweeted_status`
is replaced by it, remembering the outer tweet. -/
def retweetUnwrap (tweet : JObj) : Except PyErr (JObj × Option JObj) :=
  if has_path (.obj tweet) ["retweeted_status"] then
    match pyGet tweet "retweeted_status" with
    | some (.obj rt) => .ok (rt, some tweet)
    | _ => .error .typeError
  else .ok (tweet, none)

/-- The retweet timestamps (lines 694-700). -/
def retweetStamps (env : RenderEnv) (outer : Option JObj) :
    Except PyErr (Option String × Option Int) :=
  match outer with
  | none => .ok (none, none)
  | some ot =>
    match pyGet ot "created_at" with
    | none => .error (.keyError "created_at")
    | some (.str ca) =>
      match parse_original_date ca with
      | .error e => .error e
      | .ok rts => .ok (some (formatNicerDate rts env.localOffset), some rts)
    | some _ => .error .typeError

/-- The user-id branch (lines 702-706): the egg's user id and, for tweets
carrying their author, the outer user id. -/
def userIdOf (own : UserData) (t : JObj) : Except PyErr (JValue × Option JValue) :=
  if has_path (.obj t) ["user", "id_str"] then
    match pyGet t "user" with
    | some (.obj u) =>
      match pyGet u "id_str" with
      | some uid => .ok (uid, some own.user_id)
      | none => .error (.keyError "id_str")
    | _ => .error .typeError
  else .ok (own.user_id, none)

/-- The reply block (lines 710-726): trimmed full text, `name_list` and
`replying_to_url`. -/
def replyData (own : UserData) (t : JObj) (ft : String) :
    String × Option String × Option String :=
  if has_path (.obj t) ["in_reply_to_status_id"] then
    let replying_to0 := replyRun ft
    let ftr :=
      if replying_to0 = "" then (ft, "@" ++ pyStr own.handle)
      else (⟨ft.data.drop replying_to0.data.length⟩, replying_to0)
    let names := splitWs ftr.2
    let in_reply_to_screen_name :=
      match pyGet t "in_reply_to_screen_name" with
      | some v => pyStr v
      | none => names.headD ""
    let name_list :=
      String.intercalate ", " names.dropLast
        ++ (if names.length > 1 then " and " ++ ((names.getLast?).getD "")
            else names.headD "")
    let status_id := pyStr ((pyGet t "in_reply_to_status_id").getD .null)
    (ftr.1, some name_list,
     some ("https://twitter.com/" ++ in_reply_to_screen_name ++ "/status/" ++ status_id))
  else (ft, none, none)

/-- The bare-URL fallback guard and loop (lines 730-750), applied to the
tweet's original full text. -/
def bareBlock (t : JObj) (ft : String) : Except PyErr (List UrlEntry) :=
  match pyGet t "entities" with
  | none => .ok []
  | some (.obj ents) =>
    if pyContains ents "media" then .ok []
    else
      match pyGet ents "urls" with
      | none => .ok (bareUrlEntries ft)
      | some (.arr l) => .ok (if l.isEmpty then bareUrlEntries ft else [])
      | some (.str s) => .ok (if s.data.isEmpty then bareUrlEntries ft else [])
      | some (.obj o) => .ok (if o.isEmpty then bareUrlEntries ft else [])
      | some _ => .error .typeError
  | some (.str s) =>
    if containsSub s "media" then .ok [] else .error .attributeError
  | some (.arr l) =>
    if pyListContains l (.str "media") then .ok [] else .error .attributeError
  | some _ => .error .typeError

/-- The `entities.urls` loop (lines 752-774): url entries in order, and the
last known quoted tweet assigned to `egg['inner_tweet']`.  (As in
`collect_tweet_references`, a non-dict url entry is skipped.) -/
def urlsLoopGo (known : Option (List (String × JObj))) :
    List JValue → Except PyErr (List UrlEntry × Option JObj)
  | [] => .ok ([], none)
  | u :: rest =>
    match u with
    | .obj uo =>
      if pyContains uo "url" && pyContains uo "expanded_url" then
        match pyGet uo "expanded_url" with
        | some (.str eu) =>
          match pyGet uo "url" with
          | some (.str su) =>
            match pyGet uo "display_url" with
            | none => .error (.keyError "display_url")
            | some dv =>
              match urlsLoopGo known rest with
              | .error e => .error e
              | .ok p =>
                .ok (⟨su, eu, pyStr dv⟩ :: p.1,
                  match p.2 with
                  | some x => some x
                  | none =>
                    match matchStatusUrl eu with
                    | some q =>
                      match known with
                      | some ks => storeGet ks q.2
                      | none => none
                    | none => none)
          | some _ => .error .typeError
          | none => .error (.keyError "url")
        | some _ => .error .typeError
        | none => .error (.keyError "expanded_url")
      else urlsLoopGo known rest
    | _ => urlsLoopGo known rest

def urlsLoop (known : Option (List (String × JObj))) (t : JObj) :
    Except PyErr (List UrlEntry × Option JObj) :=
  if has_path (.obj t) ["entities", "urls"] then
    match pyGet t "entities" with
    | some (.obj ents) =>
      match pyGet ents "urls" with
      | some (.arr us) => urlsLoopGo known us
      | some _ => .error .typeError
      | none => .error (.keyError "urls")
    | _ => .error .typeError
  else .ok ([], none)

/-- The inner-tweet author lookup of `convert_tweet_to_html`
(lines 943-951) — performed before the guarded conversion, so its
errors propagate. -/
def innerUserData (env : RenderEnv) (own : UserData) (it : JObj) :
    Except PyErr UserData :=
  if has_path (.obj it) ["user", "id_str"] then
    match pyGet it "user" with
    | some (.obj u) =>
      match pyGet u "id_str" with
      | some iuid =>
        match jLookupStr env.extended_user_data iuid with
        | some inner_user =>
          match pyGet inner_user "screen_name" with
          | some sn => .ok ⟨iuid, sn⟩
          | none => .error (.keyError "screen_name")
        | none => .ok ⟨iuid, .str "unknown user"⟩
      | none => .error (.keyError "id_str")
    | _ => .error .typeError
  else .ok own

/-- The pre-header of `convert_tweet_to_html` (lines 930-941). -/
def preHeaderOf (env : RenderEnv) (egg : Egg) : Except PyErr String :=
  if egg.is_retweeted then
    match egg.outer_user_id with
    | none => .error (.keyError "outer_user_id")
    | some ouid =>
      match jLookupStr env.extended_user_data ouid with
      | none => .error (.keyError (pyStr ouid))
      | some outer_user =>
        match pyGet outer_user "description", pyGet outer_user "name" with
        | some od, some onm =>
          .ok ("<div class=\"tweet-pre-header\">Retweeted by <span class=\"user-name\" title=\""
            ++ pyStr od ++ "\">" ++ pyStr onm ++ "</span></div>")
        | none, _ => .error (.keyError "description")
        | _, none => .error (.keyError "name")
  else
    match egg.replying_to_url with
    | some rurl =>
      .ok ("<div class=\"tweet-pre-header\">Replying to <a href=\"" ++ rurl
        ++ "\">" ++ egg.name_list.getD "" ++ "</a></div>")
    | none => .ok ""

mutual

/-- `convert_tweet` with a structural fuel (each call layer consumes one
unit; `.outOfFuel` is an artifact that the wrapper's fuel choice makes
unreachable).  Returns `(timestamp, markdown, html)`. -/
def convertTweetFuel : Nat → RenderEnv → JObj → Option (List (String × JObj)) →
    UserData → Nat → Except PyErr (Int × String × String)
  | 0, _, _, _, _, _ => .error .outOfFuel
  | fuel + 1, env, tweet0, known, own, depth =>
    if 5 ≤ depth then .error .quoteRecursionDepth
    else
      match pyGet (unwrap_tweet tweet0) "full_text" with
      | none => .error .emptyTweetFullText
      | some .null => .error .emptyTweetFullText
      | some _ =>
        match retweetUnwrap (unwrap_tweet tweet0) with
        | .error e => .error e
        | .ok td =>
          match pyGet td.1 "created_at" with
          | none => .error (.keyError "created_at")
          | some (.str ca) =>
            match parse_original_date ca with
            | .error e => .error e
            | .ok ts =>
              match pyGet td.1 "id_str" with
              | none => .error (.keyError "id_str")
              | some idv =>
                match retweetStamps env td.2 with
                | .error e => .error e
                | .ok rst =>
                  match userIdOf own td.1 with
                  | .error e => .error e
                  | .ok uids =>
                    match pyGet td.1 "full_text" with
                    | none => .error (.keyError "full_text")
                    | some (.str ft) =>
                      match bareBlock td.1 ft with
                      | .error e => .error e
                      | .ok bares =>
                        match urlsLoop known td.1 with
                        | .error e => .error e
                        | .ok ured =>
                          match add_user_metadata_to_egg env {
                            id := idv,
                            timestamp_str := formatNicerDate ts env.localOffset,
                            timestamp := ts,
                            urls := bares ++ ured.1,
                            original_tweet_url := "https://twitter.com/"
                              ++ pyStr own.handle ++ "/status/" ++ pyStr idv,
                            icon_url := env.relUrl env.paths.file_tweet_icon
                              env.paths.example_file_output_tweets,
                            is_retweeted := td.2.isSome,
                            retweeted_timestamp_str := rst.1,
                            retweeted_timestamp := rst.2,
                            user_id := uids.1,
                            outer_user_id := uids.2,
                            name_list := (replyData own td.1 ft).2.1,
                            replying_to_url := (replyData own td.1 ft).2.2,
                            full_text := (replyData own td.1 ft).1,
                            inner_tweet := ured.2 } with
                          | .error e => .error e
                          | .ok egg2 =>
                            match convertHtmlFuel fuel env egg2 known own depth with
                            | .error e => .error e
                            | .ok html =>
                              .ok ((if egg2.is_retweeted then
                                      egg2.retweeted_timestamp.getD egg2.timestamp
                                    else egg2.timestamp),
                                   convert_tweet_to_md egg2, html)
                    | some _ => .error .typeError
          | some _ => .error .typeError

/-- The final assembly of `convert_tweet_to_html` (lines 952-968 minus the
inner conversion): body with `<br/>` line breaks and expanded links, header,
then any quoted-tweet html. -/
def assembleHtml (env : RenderEnv) (egg : Egg) (pre_header all_media : String) :
    String :=
  pre_header ++ convert_tweet_to_html_head env egg
    ++ "<div class=\"tweet-body\">\n"
    ++ egg.urls.foldl (fun b u =>
        pyReplace b u.short_url
          ("<a href=\"" ++ u.expanded_url ++ "\">" ++ u.display_url ++ "</a>"))
        (pyReplace egg.full_text "\n" "<br/>\n")
    ++ "\n" ++ all_media ++ "\n</div>\n"

/-- `convert_tweet_to_html` with the same fuel: the inner quoted tweet is
converted at `depth + 1`, and any error of that conversion is caught and
replaced by the inline notice. -/
def convertHtmlFuel : Nat → RenderEnv → Egg → Option (List (String × JObj)) →
    UserData → Nat → Except PyErr String
  | 0, _, _, _, _, _ => .error .outOfFuel
  | fuel + 1, env, egg, known, own, depth =>
    match preHeaderOf env egg with
    | .error e => .error e
    | .ok pre_header =>
      match egg.inner_tweet with
      | none => .ok (assembleHtml env egg pre_header "")
      | some it =>
        match innerUserData env own it with
        | .error e => .error e
        | .ok iud =>
          .ok (assembleHtml env egg pre_header
            ("" ++ "<div class=\"quote-tweet\">"
              ++ (match convertTweetFuel fuel env it known iud (depth + 1) with
                  | .ok r => r.2.2
                  | .error err =>
                    "<i>Could not convert quoted tweet because of error: "
                      ++ pyErrMsg err ++ "</i>")
              ++ "</div>"))

end

/-- `convert_tweet` proper: the depth cutoff bounds the recursion at six
tweet layers and six html layers, so fuel 13 is never exhausted. -/
def convert_tweet (env : RenderEnv) (tweet : JObj)
    (known : Option (List (String × JObj))) (own : UserData) (depth : Nat) :
    Except PyErr (Int × String × String) :=
  convertTweetFuel 13 env tweet known own depth


theorem parse_original_date_err {s : String} {e : PyErr}
    (h : parse_original_date s = .error e) : e = .valueError := by
  unfold parse_original_date at h
  repeat' split at h
  all_goals simp_all

theorem parse_original_date_noQrd {s : String} :
    parse_original_date s ≠ .error .quoteRecursionDepth := by
  intro h
  simpa using parse_original_date_err h

theorem retweetUnwrap_noQrd {t : JObj} :
    retweetUnwrap t ≠ .error .quoteRecursionDepth := by
  intro h
  unfold retweetUnwrap at h
  repeat' split at h
  all_goals simp_all

theorem retweetStamps_noQrd {env : RenderEnv} {outer : Option JObj} :
    retweetStamps env outer ≠ .error .quoteRecursionDepth := by
  intro h
  unfold retweetStamps at h
  repeat' split at h
  all_goals try simp_all
  all_goals exact parse_original_date_noQrd (by assumption)

theorem userIdOf_noQrd {own : UserData} {t : JObj} :
    userIdOf own t ≠ .error .quoteRecursionDepth := by
  intro h
  unfold userIdOf at h
  repeat' split at h
  all_goals simp_all

theorem bareBlock_noQrd {t : JObj} {ft : String} :
    bareBlock t ft ≠ .error .quoteRecursionDepth := by
  intro h
  unfold bareBlock at h
  repeat' split at h
  all_goals simp_all

theorem urlsLoopGo_noQrd {known : Option (List (String × JObj))} :
    ∀ us, urlsLoopGo known us ≠ .error .quoteRecursionDepth := by
  intro us
  induction us with
  | nil => intro h; simp [urlsLoopGo] at h
  | cons u rest ih =>
    intro h
    unfold urlsLoopGo at h
    repeat' split at h
    all_goals try simp_all
    all_goals exact ih (by assumption)

theorem urlsLoop_noQrd {known : Option (List (String × JObj))} {t : JObj} :
    urlsLoop known t ≠ .error .quoteRecursionDepth := by
  intro h
  unfold urlsLoop at h
  repeat' split at h
  all_goals try simp_all
  all_goals exact urlsLoopGo_noQrd _ (by assumption)

theorem profileImageOf_noQrd {user : JObj} :
    profileImageOf user ≠ .error .quoteRecursionDepth := by
  intro h
  unfold profileImageOf at h
  repeat' split at h
  all_goals simp_all

theorem add_user_metadata_noQrd {env : RenderEnv} {egg : Egg} :
    add_user_metadata_to_egg env egg ≠ .error .quoteRecursionDepth := by
  intro h
  unfold add_user_metadata_to_egg at h
  repeat' split at h
  all_goals try simp_all
  all_goals exact profileImageOf_noQrd (by assumption)

theorem innerUserData_noQrd {env : RenderEnv} {own : UserData} {it : JObj} :
    innerUserData env own it ≠ .error .quoteRecursionDepth := by
  intro h
  unfold innerUserData at h
  repeat' split at h
  all_goals simp_all

theorem preHeaderOf_noQrd {env : RenderEnv} {egg : Egg} :
    preHeaderOf env egg ≠ .error .quoteRecursionDepth := by
  intro h
  unfold preHeaderOf at h
  repeat' split at h
  all_goals simp_all

theorem convertHtmlFuel_noQrd {fuel : Nat} {env : RenderEnv} {egg : Egg}
    {known : Option (List (String × JObj))} {own : UserData} {depth : Nat} :
    convertHtmlFuel fuel env egg known own depth ≠ .error .quoteRecursionDepth := by
  intro h
  match fuel with
  | 0 => simp [convertHtmlFuel] at h
  | fuel + 1 =>
    unfold convertHtmlFuel at h
    repeat' split at h
    all_goals try simp_all
    all_goals
      first
        | exact preHeaderOf_noQrd (by assumption)
        | exact innerUserData_noQrd (by assumption)

/-- The only way `convert_tweet` can return `QuoteRecursionDepthError` is its
own depth check: every inner conversion's failure is caught and inlined. -/
theorem convertTweetFuel_qRD :
    ∀ (fuel : Nat) (env : RenderEnv) (t : JObj)
      (known : Option (List (String × JObj))) (own : UserData) (depth : Nat),
      convertTweetFuel fuel env t known own depth = .error .quoteRecursionDepth →
      5 ≤ depth := by
  intro fuel env t known own depth h
  match fuel with
  | 0 => simp [convertTweetFuel] at h
  | fuel + 1 =>
    by_cases hd : 5 ≤ depth
    · exact hd
    · exfalso
      unfold convertTweetFuel at h
      rw [if_neg hd] at h
      repeat' split at h
      all_goals try simp_all
      all_goals
        first
          | exact retweetUnwrap_noQrd (by assumption)
          | exact parse_original_date_noQrd (by assumption)
          | exact retweetStamps_noQrd (by assumption)
          | exact userIdOf_noQrd (by assumption)
          | exact bareBlock_noQrd (by assumption)
          | exact urlsLoop_noQrd (by assumption)
          | exact add_user_metadata_noQrd (by assumption)
          | exact convertHtmlFuel_noQrd (by assumption)

def exceptIsOk {α : Type} : Except PyErr α → Bool
  | .ok _ => true
  | .error _ => false

def getHtml : Except PyErr (Int × String × String) → String
  | .ok r => r.2.2
  | .error _ => ""

def c5_env : RenderEnv :=
  { users := [], extended_user_data := [], localOffset := 0,
    paths := { file_tweet_icon := "tweet.ico", dir_output_media := "media",
               example_file_output_tweets := "out.html" },
    relUrl := fun a _ => a }

def c5_user : UserData := ⟨.str "42", .str "me"⟩

/-- An archive tweet that quotes another tweet via a status URL in its
`entities.urls`. -/
def mkChainTweet (own_id quoted_id : String) : JObj :=
  [("from_archive", .bool true),
   ("id_str", .str own_id),
   ("created_at", .str "Tue Mar 19 14:05:17 +0000 2019"),
   ("full_text", .str ("QT https://t.co/" ++ own_id)),
   ("entities", .obj [("urls", .arr [.obj
     [("url", .str ("https://t.co/" ++ own_id)),
      ("expanded_url", .str ("https://twitter.com/u/status/" ++ quoted_id)),
      ("display_url", .str "t.co/x")]])])]

/-- Six known tweets: 106 quotes 105 quotes ... quotes 101, which quotes the
unknown 100 (so the chain ends there). -/
def c5_known : List (String × JObj) :=
  [("101", mkChainTweet "101" "100"),
   ("102", mkChainTweet "102" "101"),
   ("103", mkChainTweet "103" "102"),
   ("104", mkChainTweet "104" "103"),
   ("105", mkChainTweet "105" "104"),
   ("106", mkChainTweet "106" "105")]

def c5_notice : String :=
  "<i>Could not convert quoted tweet because of error: reached depth limit for nested quotes.</i>"

set_option maxRecDepth 4000 in
/-- C5: `convert_tweet` fails with the quote-recursion error exactly when
`depth ≥ 5`, with top-level rendering starting at depth 0.  The 5-deep quote
chain (105 → … → 101) renders successfully — its deepest record (101,
reached at depth 4) converts cleanly, with no recursion notice.  The 6-deep
chain (106 → … → 101) still renders at the top level: the limit is hit at
the 6th level (101 at depth 5 raises), and the enclosing conversion (102 at
depth 4) catches the failure and inlines the notice instead of propagating
it. -/
theorem C5_quote_recursion_limit :
    (∀ (env : RenderEnv) (tweet : JObj) (known : Option (List (String × JObj)))
        (own : UserData) (depth : Nat),
        convert_tweet env tweet known own depth = .error .quoteRecursionDepth
          ↔ 5 ≤ depth)
    ∧ exceptIsOk (convert_tweet c5_env (mkChainTweet "105" "104")
        (some c5_known) c5_user 0) = true
    ∧ exceptIsOk (convert_tweet c5_env (mkChainTweet "101" "100")
        (some c5_known) c5_user 4) = true
    ∧ containsSub (getHtml (convert_tweet c5_env (mkChainTweet "101" "100")
        (some c5_known) c5_user 4)) c5_notice = false
    ∧ exceptIsOk (convert_tweet c5_env (mkChainTweet "106" "105")
        (some c5_known) c5_user 0) = true
    ∧ containsSub (getHtml (convert_tweet c5_env (mkChainTweet "102" "101")
        (some c5_known) c5_user 4)) c5_notice = true
    ∧ convert_tweet c5_env (mkChainTweet "101" "100") (some c5_known) c5_user 5
        = .error .quoteRecursionDepth := by
  refine ⟨?_, rfl, rfl, rfl, rfl, rfl, rfl⟩
  intro env tweet known own depth
  constructor
  · exact convertTweetFuel_qRD 13 env tweet known own depth
  · intro h
    show convertTweetFuel 13 env tweet known own depth = .error .quoteRecursionDepth
    rw [show (13 : Nat) = 12 + 1 from rfl]
    simp only [convertTweetFuel]
    rw [if_pos h]

theorem C5_quote_recursion_limit_witness :
    convert_tweet c5_env (mkChainTweet "103" "102") (some c5_known) c5_user 7
      = .error .quoteRecursionDepth
    ∧ ¬(convert_tweet c5_env (mkChainTweet "103" "102") (some c5_known) c5_user 2
      = .error .quoteRecursionDepth) := by
  constructor
  · exact (C5_quote_recursion_limit.1 c5_env (mkChainTweet "103" "102")
      (some c5_known) c5_user 7).mpr (by decide)
  · intro h
    have h2 := (C5_quote_recursion_limit.1 c5_env (mkChainTweet "103" "102")
      (some c5_known) c5_user 2).mp h
    exact absurd h2 (by decide)
